import Mathlib

/-!
Verification of the showtime ingestion, deduplication and notification engine
of the amc-showtime-monitor repository, as a shallow embedding of the
TypeScript sources (src/database.ts, src/amc-api.ts, src/monitor.ts,
src/telegram.ts).  SQLite statements are modelled row-for-row, keeping the
SQL comparison semantics of nullable columns.
-/

namespace AMCMonitor

/-- A showtime attribute as delivered by the catalog (code and display name),
matching the attributes entries of the AMCShowtime interface. -/
structure ShowAttr where
  code : String
  name : String
deriving Repr, DecidableEq

/-- Input of ShowtimeDatabase.upsertShowtime, i.e. the TypeScript type
Omit<Showtime, id | firstSeen | notified>.  The auditorium column of the
showtimes table carries no NOT NULL constraint, so the bound value is
modelled as an optional integer (bun:sqlite binds a missing value as SQL
NULL). -/
structure ShowtimeCandidate where
  movieId : Nat
  theatreId : Nat
  showDateTime : String
  showDateTimeLocal : String
  auditorium : Option Nat
  isSoldOut : Bool
  isAlmostSoldOut : Bool
  attributes : String
  ticketUrl : Option String
deriving Repr, DecidableEq

/-- A row of the showtimes table (the Showtime interface of src/database.ts). -/
structure ShowtimeRow where
  id : Nat
  movieId : Nat
  theatreId : Nat
  showDateTime : String
  showDateTimeLocal : String
  auditorium : Option Nat
  isSoldOut : Bool
  isAlmostSoldOut : Bool
  attributes : String
  ticketUrl : Option String
  firstSeen : String
  notified : Bool
deriving Repr, DecidableEq

/-- The showtimes table: rows in rowid order plus the next synthetic primary
key (SQLite INTEGER PRIMARY KEY auto-assignment). -/
structure ShowtimeStore where
  rows : List ShowtimeRow
  nextId : Nat
deriving Repr, DecidableEq

/-- SQL equality on the nullable auditorium column: comparing with NULL is
never true, exactly as the `auditorium = ?` predicate of the SELECT in
upsertShowtime behaves in SQLite. -/
def sqlNullEq (a b : Option Nat) : Bool :=
  match a, b with
  | some x, some y => x == y
  | _, _ => false

/-- The WHERE clause of the natural-key lookup in upsertShowtime:
movie_id = ? AND theatre_id = ? AND show_date_time = ? AND auditorium = ?. -/
def matchesKey (c : ShowtimeCandidate) (r : ShowtimeRow) : Bool :=
  r.movieId == c.movieId && r.theatreId == c.theatreId &&
    r.showDateTime == c.showDateTime && sqlNullEq r.auditorium c.auditorium

/-- The UPDATE branch of upsertShowtime: refresh exactly the mutable columns
(show_date_time_local, is_sold_out, is_almost_sold_out, attributes,
ticket_url), leaving id, key columns, first_seen and notified untouched. -/
def updateRow (c : ShowtimeCandidate) (r : ShowtimeRow) : ShowtimeRow :=
  { r with
    showDateTimeLocal := c.showDateTimeLocal
    isSoldOut := c.isSoldOut
    isAlmostSoldOut := c.isAlmostSoldOut
    attributes := c.attributes
    ticketUrl := c.ticketUrl }

/-- The INSERT branch of upsertShowtime: a fresh row with
first_seen = CURRENT_TIMESTAMP (the call time) and notified = FALSE. -/
def insertRow (now : String) (c : ShowtimeCandidate) (id : Nat) : ShowtimeRow :=
  { id := id
    movieId := c.movieId
    theatreId := c.theatreId
    showDateTime := c.showDateTime
    showDateTimeLocal := c.showDateTimeLocal
    auditorium := c.auditorium
    isSoldOut := c.isSoldOut
    isAlmostSoldOut := c.isAlmostSoldOut
    attributes := c.attributes
    ticketUrl := c.ticketUrl
    firstSeen := now
    notified := false }

/-- Return value of ShowtimeDatabase.upsertShowtime. -/
structure UpsertResult where
  id : Nat
  isNew : Bool
deriving Repr, DecidableEq

/-- Effect of the UPDATE ... WHERE id = ? statement on one row: the row whose
id matches is refreshed, others are untouched. -/
def updIf (c : ShowtimeCandidate) (i : Nat) (q : ShowtimeRow) : ShowtimeRow :=
  if q.id == i then updateRow c q else q

/-- ShowtimeDatabase.upsertShowtime: look up the natural key with SQL
semantics; if a row is found refresh its mutable columns and report
isNew = false, otherwise insert a fresh row and report isNew = true.
The SQLite UNIQUE(movie_id, theatre_id, show_date_time, auditorium) index
never rejects the insert here: for a non-NULL auditorium the lookup already
found any conflicting row, and SQLite treats NULLs as distinct in UNIQUE
indexes. -/
def upsertShowtime (now : String) (c : ShowtimeCandidate) (st : ShowtimeStore) :
    UpsertResult × ShowtimeStore :=
  match st.rows.find? (matchesKey c) with
  | some r =>
      (⟨r.id, false⟩, { st with rows := st.rows.map (updIf c r.id) })
  | none =>
      (⟨st.nextId, true⟩,
        { rows := st.rows ++ [insertRow now c st.nextId], nextId := st.nextId + 1 })

/-- Effect of UPDATE showtimes SET notified = TRUE WHERE id = ? on one row. -/
def markIf (i : Nat) (r : ShowtimeRow) : ShowtimeRow :=
  if r.id == i then { r with notified := true } else r

/-- ShowtimeDatabase.markShowtimeNotified: UPDATE showtimes SET
notified = TRUE WHERE id = ?. -/
def markShowtimeNotified (i : Nat) (st : ShowtimeStore) : ShowtimeStore :=
  { st with rows := st.rows.map (markIf i) }

/-- ShowtimeDatabase.getUnnotifiedShowtimes: SELECT rows WHERE
notified = FALSE (the joins to movies and theatres only attach display names
and, under the foreign keys, never drop rows; the ORDER BY first_seen does
not affect which rows are returned). -/
def getUnnotifiedShowtimes (st : ShowtimeStore) : List ShowtimeRow :=
  st.rows.filter fun r => !r.notified

/-- Primary-key lookup of a row. -/
def findRow (st : ShowtimeStore) (i : Nat) : Option ShowtimeRow :=
  st.rows.find? fun r => r.id == i

/-- Well-formedness of the table: primary keys are distinct and below the
next synthetic key, as SQLite guarantees for INTEGER PRIMARY KEY. -/
def WellFormed (st : ShowtimeStore) : Prop :=
  (st.rows.map ShowtimeRow.id).Nodup ∧ ∀ r ∈ st.rows, r.id < st.nextId

/-- Structural equality of natural keys of two candidates (the spec notion of
the same (titleId, locationId, startUtc, auditorium) tuple). -/
def sameKey (a b : ShowtimeCandidate) : Prop :=
  a.movieId = b.movieId ∧ a.theatreId = b.theatreId ∧
    a.showDateTime = b.showDateTime ∧ a.auditorium = b.auditorium

/-- Structural key match between a candidate and a stored row (NULL equals
NULL here: this is the mathematical notion of the same key tuple, used to
count how many rows carry one key). -/
def rowHasKey (c : ShowtimeCandidate) (r : ShowtimeRow) : Bool :=
  r.movieId == c.movieId && r.theatreId == c.theatreId &&
    r.showDateTime == c.showDateTime && r.auditorium == c.auditorium

/-- Number of stored rows carrying the natural key of candidate c. -/
def countKey (c : ShowtimeCandidate) (st : ShowtimeStore) : Nat :=
  (st.rows.filter (rowHasKey c)).length

/-- The empty showtimes table. -/
def emptyStore : ShowtimeStore := ⟨[], 1⟩

/-- A concrete candidate whose auditorium is NULL. -/
def candNull : ShowtimeCandidate :=
  { movieId := 10, theatreId := 609, showDateTime := "2026-01-05T03:00:00Z"
    showDateTimeLocal := "2026-01-04T19:00:00", auditorium := none
    isSoldOut := false, isAlmostSoldOut := false, attributes := "[]"
    ticketUrl := some "https://www.amctheatres.com/showtimes/90001/seats" }

/-- A concrete candidate with a present auditorium. -/
def candAud7 : ShowtimeCandidate :=
  { movieId := 10, theatreId := 609, showDateTime := "2026-01-05T03:00:00Z"
    showDateTimeLocal := "2026-01-04T19:00:00", auditorium := some 7
    isSoldOut := false, isAlmostSoldOut := false, attributes := "[]"
    ticketUrl := some "https://www.amctheatres.com/showtimes/90001/seats" }

/-! § Helper lemmas for the deduplication engine -/

theorem matchesKey_insertRow (c : ShowtimeCandidate) (now : String) (i a : Nat)
    (ha : c.auditorium = some a) : matchesKey c (insertRow now c i) = true := by
  simp [matchesKey, insertRow, sqlNullEq, ha]

theorem matchesKey_eq_rowHasKey (c : ShowtimeCandidate) (a : Nat)
    (ha : c.auditorium = some a) (r : ShowtimeRow) :
    matchesKey c r = rowHasKey c r := by
  cases hr : r.auditorium <;> simp [matchesKey, rowHasKey, sqlNullEq, ha, hr]

theorem matchesKey_sameKey (c1 c2 : ShowtimeCandidate) (h : sameKey c1 c2)
    (r : ShowtimeRow) : matchesKey c2 r = matchesKey c1 r := by
  obtain ⟨h1, h2, h3, h4⟩ := h
  simp [matchesKey, h1, h2, h3, h4]

theorem rowHasKey_insertRow (c : ShowtimeCandidate) (now : String) (i : Nat) :
    rowHasKey c (insertRow now c i) = true := by
  simp [rowHasKey, insertRow]

theorem updateRow_id (c : ShowtimeCandidate) (r : ShowtimeRow) :
    (updateRow c r).id = r.id := rfl

theorem updateRow_firstSeen (c : ShowtimeCandidate) (r : ShowtimeRow) :
    (updateRow c r).firstSeen = r.firstSeen := rfl

theorem updIf_id (c : ShowtimeCandidate) (i : Nat) (q : ShowtimeRow) :
    (updIf c i q).id = q.id := by
  unfold updIf
  cases hq : q.id == i <;> simp [hq, updateRow]

theorem updIf_rowHasKey (c0 c : ShowtimeCandidate) (i : Nat) (q : ShowtimeRow) :
    rowHasKey c0 (updIf c i q) = rowHasKey c0 q := by
  unfold updIf
  cases hq : q.id == i <;> simp [hq, updateRow, rowHasKey]

theorem find?_id_map (f : ShowtimeRow → ShowtimeRow)
    (hf : ∀ q, (f q).id = q.id) (l : List ShowtimeRow) (i : Nat) :
    (l.map f).find? (fun r => r.id == i) = (l.find? (fun r => r.id == i)).map f := by
  rw [List.find?_map]
  have h : ((fun r : ShowtimeRow => r.id == i) ∘ f) =
      fun q : ShowtimeRow => q.id == i := by
    funext q
    simp [Function.comp, hf]
  rw [h]

theorem filter_map_pred (p : ShowtimeRow → Bool) (f : ShowtimeRow → ShowtimeRow)
    (hf : ∀ q, p (f q) = p q) (l : List ShowtimeRow) :
    (l.map f).filter p = (l.filter p).map f := by
  rw [List.filter_map]
  have h : p ∘ f = p := by
    funext q
    simp [Function.comp, hf]
  rw [h]

/-! § C1: idempotent upsert -/

/-- C1 (counterexample): the claim quantifies over every showtime candidate,
but for a candidate with NULL auditorium the natural-key lookup
(auditorium = ?) never matches, so the second application of upsertShowtime
also reports isNew = true, not isNew = false. -/
theorem upsertShowtime_null_auditorium_not_idempotent :
    (upsertShowtime "2025-10-11T10:00:00Z" candNull emptyStore).1.isNew = true ∧
    (upsertShowtime "2025-10-11T10:05:00Z" candNull
        (upsertShowtime "2025-10-11T10:00:00Z" candNull emptyStore).2).1.isNew = true :=
  ⟨rfl, rfl⟩

/-- C1 (amended): for every showtime candidate whose auditorium is present,
applying upsertShowtime twice with the same natural key against a store that
does not yet hold that key returns isNew = true then isNew = false, and the
first_seen of the stored row after the second application is exactly the
timestamp set by the first application. -/
theorem upsertShowtime_idempotent (c : ShowtimeCandidate) (a : Nat)
    (t1 t2 : String) (st : ShowtimeStore) (ha : c.auditorium = some a)
    (hfresh : ∀ r ∈ st.rows, matchesKey c r = false)
    (hwf : ∀ r ∈ st.rows, r.id < st.nextId) :
    (upsertShowtime t1 c st).1.isNew = true ∧
    (upsertShowtime t2 c (upsertShowtime t1 c st).2).1.isNew = false ∧
    (findRow (upsertShowtime t2 c (upsertShowtime t1 c st).2).2
        (upsertShowtime t1 c st).1.id).map ShowtimeRow.firstSeen = some t1 := by
  have h1 : st.rows.find? (matchesKey c) = none := by
    rw [List.find?_eq_none]
    intro r hr
    simp [hfresh r hr]
  have hstep1 :
      upsertShowtime t1 c st =
        (⟨st.nextId, true⟩,
          ⟨st.rows ++ [insertRow t1 c st.nextId], st.nextId + 1⟩) := by
    simp [upsertShowtime, h1]
  have h2 : (st.rows ++ [insertRow t1 c st.nextId]).find? (matchesKey c) =
      some (insertRow t1 c st.nextId) := by
    rw [List.find?_append, h1]
    simp [matchesKey_insertRow c t1 st.nextId a ha]
  have hstep2 :
      upsertShowtime t2 c ⟨st.rows ++ [insertRow t1 c st.nextId], st.nextId + 1⟩ =
        (⟨(insertRow t1 c st.nextId).id, false⟩,
          ⟨(st.rows ++ [insertRow t1 c st.nextId]).map
            (updIf c (insertRow t1 c st.nextId).id), st.nextId + 1⟩) := by
    simp [upsertShowtime, h2]
  refine ⟨by rw [hstep1], ?_, ?_⟩
  · rw [hstep1, hstep2]
  · rw [hstep1, hstep2]
    show Option.map ShowtimeRow.firstSeen
        (((st.rows ++ [insertRow t1 c st.nextId]).map
          (updIf c (insertRow t1 c st.nextId).id)).find?
          (fun r => r.id == st.nextId)) = some t1
    rw [find?_id_map _ (updIf_id c _), List.find?_append]
    have hnone : st.rows.find? (fun r => r.id == st.nextId) = none := by
      rw [List.find?_eq_none]
      intro r hr
      simp [Nat.ne_of_lt (hwf r hr)]
    rw [hnone]
    simp [insertRow, updIf, updateRow]

/-- C1 (witness): the amended theorem applied at a concrete candidate with
auditorium 7 on an empty store. -/
theorem upsertShowtime_idempotent_witness :
    (upsertShowtime "2025-10-11T10:00:00Z" candAud7 emptyStore).1.isNew = true ∧
    (upsertShowtime "2025-10-11T10:05:00Z" candAud7
        (upsertShowtime "2025-10-11T10:00:00Z" candAud7 emptyStore).2).1.isNew = false ∧
    (findRow (upsertShowtime "2025-10-11T10:05:00Z" candAud7
        (upsertShowtime "2025-10-11T10:00:00Z" candAud7 emptyStore).2).2
        (upsertShowtime "2025-10-11T10:00:00Z" candAud7 emptyStore).1.id).map
        ShowtimeRow.firstSeen = some "2025-10-11T10:00:00Z" :=
  upsertShowtime_idempotent candAud7 7 "2025-10-11T10:00:00Z"
    "2025-10-11T10:05:00Z" emptyStore rfl
    (fun r hr => absurd hr (List.not_mem_nil r))
    (fun r hr => absurd hr (List.not_mem_nil r))

/-! § C2: natural-key uniqueness -/

/-- C2 (counterexample): for two candidates with equal natural key whose
auditorium is NULL, the store ends up with two rows carrying that key:
the SELECT comparison auditorium = NULL never matches and SQLite UNIQUE
indexes treat NULLs as distinct. -/
theorem upsertShowtime_null_auditorium_two_rows :
    countKey candNull (upsertShowtime "2025-10-11T10:05:00Z" candNull
        (upsertShowtime "2025-10-11T10:00:00Z" candNull emptyStore).2).2 = 2 :=
  rfl

/-- C2 (amended): for any two accepted candidates with equal natural key
whose auditorium is present, passed to upsertShowtime in either order
against a store not yet holding the key, the store afterwards contains
exactly one row with that key. -/
theorem upsertShowtime_natural_key_unique (c1 c2 : ShowtimeCandidate) (a : Nat)
    (t1 t2 : String) (st : ShowtimeStore) (hk : sameKey c1 c2)
    (ha : c1.auditorium = some a)
    (hfresh : ∀ r ∈ st.rows, rowHasKey c1 r = false) :
    countKey c1 (upsertShowtime t2 c2 (upsertShowtime t1 c1 st).2).2 = 1 := by
  have h1 : st.rows.find? (matchesKey c1) = none := by
    rw [List.find?_eq_none]
    intro r hr
    rw [matchesKey_eq_rowHasKey c1 a ha r]
    simp [hfresh r hr]
  have hstep1 :
      upsertShowtime t1 c1 st =
        (⟨st.nextId, true⟩,
          ⟨st.rows ++ [insertRow t1 c1 st.nextId], st.nextId + 1⟩) := by
    simp [upsertShowtime, h1]
  have h2 : (st.rows ++ [insertRow t1 c1 st.nextId]).find? (matchesKey c2) =
      some (insertRow t1 c1 st.nextId) := by
    have hcongr : ∀ r, matchesKey c2 r = matchesKey c1 r :=
      matchesKey_sameKey c1 c2 hk
    rw [List.find?_append]
    have hnone : st.rows.find? (matchesKey c2) = none := by
      rw [List.find?_eq_none]
      intro r hr
      rw [hcongr r, matchesKey_eq_rowHasKey c1 a ha r]
      simp [hfresh r hr]
    rw [hnone]
    simp [hcongr, matchesKey_insertRow c1 t1 st.nextId a ha]
  have hstep2 :
      upsertShowtime t2 c2 ⟨st.rows ++ [insertRow t1 c1 st.nextId], st.nextId + 1⟩ =
        (⟨(insertRow t1 c1 st.nextId).id, false⟩,
          ⟨(st.rows ++ [insertRow t1 c1 st.nextId]).map
            (updIf c2 (insertRow t1 c1 st.nextId).id), st.nextId + 1⟩) := by
    simp [upsertShowtime, h2]
  rw [hstep1, hstep2]
  show (((st.rows ++ [insertRow t1 c1 st.nextId]).map
      (updIf c2 (insertRow t1 c1 st.nextId).id)).filter (rowHasKey c1)).length = 1
  rw [filter_map_pred _ _ (fun q => updIf_rowHasKey c1 c2 _ q), List.filter_append]
  have hrowsnil : st.rows.filter (rowHasKey c1) = [] := by
    rw [List.filter_eq_nil_iff]
    intro r hr
    simp [hfresh r hr]
  rw [hrowsnil]
  simp [rowHasKey_insertRow c1 t1 st.nextId]

/-- C2 (witness): the amended theorem applied to two concrete candidates with
the same key and auditorium 7 on an empty store. -/
theorem upsertShowtime_natural_key_unique_witness :
    countKey candAud7 (upsertShowtime "2025-10-11T10:05:00Z" candAud7
        (upsertShowtime "2025-10-11T10:00:00Z" candAud7 emptyStore).2).2 = 1 :=
  upsertShowtime_natural_key_unique candAud7 candAud7 7 "2025-10-11T10:00:00Z"
    "2025-10-11T10:05:00Z" emptyStore ⟨rfl, rfl, rfl, rfl⟩ rfl
    (fun r hr => absurd hr (List.not_mem_nil r))

/-! § C3: notified flag monotonicity -/

/-- The store operations a run may interleave: upsertShowtime,
markShowtimeNotified and the read-only getUnnotifiedShowtimes. -/
inductive DbOp where
  | upsert (now : String) (c : ShowtimeCandidate)
  | mark (i : Nat)
  | readUnnotified
deriving Repr

def applyOp (st : ShowtimeStore) : DbOp → ShowtimeStore
  | .upsert now c => (upsertShowtime now c st).2
  | .mark i => markShowtimeNotified i st
  | .readUnnotified => st

def applyOps (st : ShowtimeStore) (ops : List DbOp) : ShowtimeStore :=
  ops.foldl applyOp st

theorem markIf_id (i : Nat) (r : ShowtimeRow) : (markIf i r).id = r.id := by
  unfold markIf
  cases hr : r.id == i <;> simp [hr]

theorem markIf_notified_true (i : Nat) (r : ShowtimeRow) (h : r.notified = true) :
    (markIf i r).notified = true := by
  unfold markIf
  cases hr : r.id == i <;> simp [hr, h]

theorem updIf_notified (c : ShowtimeCandidate) (i : Nat) (q : ShowtimeRow) :
    (updIf c i q).notified = q.notified := by
  unfold updIf
  cases hq : q.id == i <;> simp [hq, updateRow]

theorem notified_stays_upsert (now : String) (c : ShowtimeCandidate)
    (st : ShowtimeStore) (i : Nat)
    (h : (findRow st i).map ShowtimeRow.notified = some true) :
    (findRow (upsertShowtime now c st).2 i).map ShowtimeRow.notified = some true := by
  obtain ⟨q, hq, hqn⟩ : ∃ q, findRow st i = some q ∧ q.notified = true := by
    cases hfq : findRow st i with
    | none => rw [hfq] at h; cases h
    | some q =>
        rw [hfq] at h
        exact ⟨q, rfl, by simpa using h⟩
  cases hfind : st.rows.find? (matchesKey c) with
  | some r =>
      have : findRow (upsertShowtime now c st).2 i =
          some (updIf c r.id q) := by
        simp only [upsertShowtime, hfind, findRow]
        rw [find?_id_map _ (updIf_id c r.id)]
        rw [show st.rows.find? (fun x => x.id == i) = some q from hq]
        rfl
      rw [this]
      simp [updIf_notified, hqn]
  | none =>
      have : findRow (upsertShowtime now c st).2 i = some q := by
        simp only [upsertShowtime, hfind, findRow]
        rw [List.find?_append,
          show st.rows.find? (fun x => x.id == i) = some q from hq]
        rfl
      rw [this]
      simp [hqn]

theorem notified_stays_mark (j : Nat) (st : ShowtimeStore) (i : Nat)
    (h : (findRow st i).map ShowtimeRow.notified = some true) :
    (findRow (markShowtimeNotified j st) i).map ShowtimeRow.notified = some true := by
  obtain ⟨q, hq, hqn⟩ : ∃ q, findRow st i = some q ∧ q.notified = true := by
    cases hfq : findRow st i with
    | none => rw [hfq] at h; cases h
    | some q =>
        rw [hfq] at h
        exact ⟨q, rfl, by simpa using h⟩
  have : findRow (markShowtimeNotified j st) i = some (markIf j q) := by
    simp only [markShowtimeNotified, findRow]
    rw [find?_id_map _ (markIf_id j)]
    rw [show st.rows.find? (fun x => x.id == i) = some q from hq]
    rfl
  rw [this]
  simp [markIf_notified_true j q hqn]

theorem notified_stays_op (op : DbOp) (st : ShowtimeStore) (i : Nat)
    (h : (findRow st i).map ShowtimeRow.notified = some true) :
    (findRow (applyOp st op) i).map ShowtimeRow.notified = some true := by
  cases op with
  | upsert now c => exact notified_stays_upsert now c st i h
  | mark j => exact notified_stays_mark j st i h
  | readUnnotified => exact h

/-- C3: across any sequence of upsertShowtime / markShowtimeNotified /
getUnnotifiedShowtimes operations, a row whose notified flag is true keeps
it true (the flag never transitions back to false), and
getUnnotifiedShowtimes only ever returns rows whose notified flag is false,
so a notified row is never re-included in a notification batch. -/
theorem notified_monotone (ops : List DbOp) (st : ShowtimeStore) (i : Nat)
    (h : (findRow st i).map ShowtimeRow.notified = some true) :
    (findRow (applyOps st ops) i).map ShowtimeRow.notified = some true ∧
    ∀ r ∈ getUnnotifiedShowtimes (applyOps st ops), r.notified = false := by
  have hmain : (findRow (applyOps st ops) i).map ShowtimeRow.notified = some true := by
    induction ops generalizing st with
    | nil => exact h
    | cons op rest ih =>
        have hstep := notified_stays_op op st i h
        simpa [applyOps] using ih (applyOp st op) hstep
  refine ⟨hmain, ?_⟩
  intro r hr
  have := List.mem_filter.mp hr
  simpa using this.2

/-- A concrete stored row that has already been notified. -/
def rowNotified1 : ShowtimeRow :=
  { insertRow "2025-10-01T00:00:00Z" candAud7 1 with notified := true }

/-- A concrete store holding only that row. -/
def storeNotified1 : ShowtimeStore := ⟨[rowNotified1], 2⟩

/-- C3 (witness): the store with one notified row, run through an upsert, a
mark of another row and a read. -/
theorem notified_monotone_witness :
    (findRow (applyOps storeNotified1
        [DbOp.upsert "2025-10-11T10:00:00Z" candNull, DbOp.mark 5,
          DbOp.readUnnotified]) 1).map ShowtimeRow.notified = some true ∧
    ∀ r ∈ getUnnotifiedShowtimes (applyOps storeNotified1
        [DbOp.upsert "2025-10-11T10:00:00Z" candNull, DbOp.mark 5,
          DbOp.readUnnotified]), r.notified = false :=
  notified_monotone
    [DbOp.upsert "2025-10-11T10:00:00Z" candNull, DbOp.mark 5, DbOp.readUnnotified]
    storeNotified1 1 (by rfl)

/-! § Watchlist (src/database.ts, addToWatchlist / removeFromWatchlist /
isInWatchlist over the watchlist table) -/

/-- The SQLite NOCASE collation: equality after folding the 26 ASCII
upper-case letters, which is exactly what Char.toLower does on the
characters of the two names. -/
def nocaseEq (a b : String) : Bool :=
  a.data.map Char.toLower == b.data.map Char.toLower

/-- ShowtimeDatabase.addToWatchlist: INSERT OR IGNORE INTO watchlist
(movie_name) VALUES (?).  The UNIQUE constraint on movie_name carries the
default BINARY collation, so the duplicate check is exact (case-sensitive)
string equality; the Bool result models result.changes > 0. -/
def addToWatchlist (movieName : String) (wl : List String) : Bool × List String :=
  if wl.contains movieName then (false, wl) else (true, wl ++ [movieName])

/-- ShowtimeDatabase.removeFromWatchlist: DELETE FROM watchlist WHERE
movie_name = ? COLLATE NOCASE; the Bool result models result.changes > 0. -/
def removeFromWatchlist (movieName : String) (wl : List String) : Bool × List String :=
  (wl.any fun r => nocaseEq r movieName,
    wl.filter fun r => !nocaseEq r movieName)

/-- ShowtimeDatabase.isInWatchlist: SELECT 1 FROM watchlist WHERE
movie_name = ? COLLATE NOCASE. -/
def isInWatchlist (movieName : String) (wl : List String) : Bool :=
  wl.any fun r => nocaseEq r movieName

/-! § C7: watchlist case-insensitivity -/

/-- C7 (counterexample): with "Tron: Ares" already in the watchlist, an add
command for "TRON: ARES" reports a successful insert and leaves two rows
that are equal under the case-insensitive notion of identity: the UNIQUE
constraint on movie_name uses the default case-sensitive collation, so the
differently-cased add is not deduplicated. -/
theorem addToWatchlist_case_variant_duplicate :
    (addToWatchlist "TRON: ARES" (addToWatchlist "Tron: Ares" []).2).1 = true ∧
    (addToWatchlist "TRON: ARES" (addToWatchlist "Tron: Ares" []).2).2.length = 2 ∧
    nocaseEq "Tron: Ares" "TRON: ARES" = true :=
  ⟨by decide, by decide, by decide⟩

/-- C7 (amended): an add whose name is byte-identical to a stored entry
creates no duplicate row; removal is case-insensitive, deleting every entry
that matches the given name under NOCASE — in particular, if every stored
entry matches, removal empties the watchlist, so adding "Tron: Ares" and
then removing "TRON: ARES" leaves the watchlist empty.  An add whose casing
differs from the stored entry is not deduplicated. -/
theorem watchlist_case_semantics (name other : String) (wl : List String)
    (hmem : name ∈ wl) (hnc : nocaseEq name other = true) :
    (addToWatchlist name wl).1 = false ∧
    (addToWatchlist name wl).2 = wl ∧
    (removeFromWatchlist other wl).1 = true ∧
    (∀ r ∈ (removeFromWatchlist other wl).2, nocaseEq r other = false) ∧
    ((∀ r ∈ wl, nocaseEq r other = true) → (removeFromWatchlist other wl).2 = []) := by
  refine ⟨?_, ?_, ?_, ?_, ?_⟩
  · simp [addToWatchlist, hmem]
  · simp [addToWatchlist, hmem]
  · simp only [removeFromWatchlist, List.any_eq_true]
    exact ⟨name, hmem, hnc⟩
  · intro r hr
    have := List.mem_filter.mp hr
    simpa using this.2
  · intro hall
    simp only [removeFromWatchlist]
    rw [List.filter_eq_nil_iff]
    intro r hr
    simp [hall r hr]

/-- C7 (witness): the amended theorem at the Tron example, whose removal
leaves the watchlist empty. -/
theorem watchlist_case_semantics_witness :
    (addToWatchlist "Tron: Ares" ["Tron: Ares"]).1 = false ∧
    (addToWatchlist "Tron: Ares" ["Tron: Ares"]).2 = ["Tron: Ares"] ∧
    (removeFromWatchlist "TRON: ARES" ["Tron: Ares"]).1 = true ∧
    (∀ r ∈ (removeFromWatchlist "TRON: ARES" ["Tron: Ares"]).2,
        nocaseEq r "TRON: ARES" = false) ∧
    ((∀ r ∈ ["Tron: Ares"], nocaseEq r "TRON: ARES" = true) →
        (removeFromWatchlist "TRON: ARES" ["Tron: Ares"]).2 = []) :=
  watchlist_case_semantics "Tron: Ares" "TRON: ARES" ["Tron: Ares"]
    (by decide) (by decide)

/-! § Telegram command cursor (C6) -/

/-- One inbound Telegram update: its identifier and message text. -/
structure InboundMessage where
  updateId : Nat
  text : String
deriving Repr, DecidableEq

/-- Split a character sequence at the first space into the leading token and
the remainder. -/
def splitFirstToken (cs : List Char) : List Char × List Char :=
  match cs with
  | [] => ([], [])
  | c :: rest =>
      if c == ' ' then ([], rest)
      else
        let (tok, args) := splitFirstToken rest
        (c :: tok, args)

/-- Modelled from the spec: the Telegram polling method (checkForCommands)
that maintains the persisted command cursor is not among the provided
source files — only its caller (ShowtimeMonitor.processTelegramCommands)
and the bot_state persistence (setBotState / getBotState) are.  Per the
spec, only items whose text begins with the command marker are interpreted
as commands: the marker plus the first whitespace-delimited token selects
the operation and the remainder is the argument. -/
def parseCommand (text : String) : Option (List Char × List Char) :=
  match text.data with
  | [] => none
  | c :: _ => if c == '/' then some (splitFirstToken text.data) else none

/-- Modelled from the spec: processing one inbound item advances the cursor
to its own identifier — regardless of whether its text parses as a
recognized command — and appends the parsed command, if any. -/
def stepCommand (acc : Nat × List (List Char × List Char)) (m : InboundMessage) :
    Nat × List (List Char × List Char) :=
  (m.updateId,
    match parseCommand m.text with
    | some c => acc.2 ++ [c]
    | none => acc.2)

/-- Modelled from the spec: one run of command processing over the inbound
queue, starting from the persisted cursor. -/
def processInbound (cursor : Nat) (items : List InboundMessage) :
    Nat × List (List Char × List Char) :=
  items.foldl stepCommand (cursor, [])

theorem processInbound_fst_getLast (items : List InboundMessage) :
    ∀ (acc : Nat × List (List Char × List Char)) (hne : items ≠ []),
      (items.foldl stepCommand acc).1 = (items.getLast hne).updateId := by
  induction items with
  | nil => intro acc hne; exact absurd rfl hne
  | cons m rest ih =>
      intro acc hne0
      cases rest with
      | nil => simp [stepCommand]
      | cons m2 rest2 =>
          have hne2 : m2 :: rest2 ≠ [] := by simp
          rw [List.foldl_cons, ih (stepCommand acc m) hne2,
            List.getLast_cons hne2]

theorem updateId_le_getLast :
    ∀ (l : List InboundMessage) (hne : l ≠ []),
      l.Sorted (fun m1 m2 => m1.updateId ≤ m2.updateId) →
      ∀ m ∈ l, m.updateId ≤ (l.getLast hne).updateId := by
  intro l
  induction l with
  | nil => intro hne; exact absurd rfl hne
  | cons a rest ih =>
      intro hne0 hsorted m hm
      rw [List.sorted_cons] at hsorted
      cases rest with
      | nil =>
          simp at hm
          simp [hm]
      | cons b rest2 =>
          have hne2 : b :: rest2 ≠ [] := by simp
          rw [List.getLast_cons hne2]
          rcases List.mem_cons.mp hm with hma | hmr
          · subst hma
            exact hsorted.1 _ (List.getLast_mem hne2)
          · exact ih hne2 hsorted.2 m hmr

/-- C6: after processing a run of inbound command messages delivered in
ascending identifier order, the persisted command cursor equals the highest
message identifier in the sequence — it is the identifier of one of the
inbound items and no item, recognized command or not, has a larger one. -/
theorem command_cursor_highest (cursor : Nat) (items : List InboundMessage)
    (hne : items ≠ [])
    (hsorted : items.Sorted (fun m1 m2 => m1.updateId ≤ m2.updateId)) :
    (∃ m ∈ items, (processInbound cursor items).1 = m.updateId) ∧
    ∀ m ∈ items, m.updateId ≤ (processInbound cursor items).1 := by
  have hfst := processInbound_fst_getLast items (cursor, []) hne
  constructor
  · exact ⟨items.getLast hne, List.getLast_mem hne, hfst⟩
  · intro m hm
    rw [show (processInbound cursor items).1 = (items.getLast hne).updateId from hfst]
    exact updateId_le_getLast items hne hsorted m hm

/-- The inbound sequence of the spec example: a recognized add command, a
message that is not a recognized command, and a recognized list command. -/
def inboundExample : List InboundMessage :=
  [⟨5, "/add Foo"⟩, ⟨6, "garbage"⟩, ⟨7, "/list"⟩]

/-- C6 (witness): on the concrete sequence with identifiers 5, 6, 7 the
final cursor is 7 even though message 6 is not a command (it does not parse). -/
theorem command_cursor_highest_witness :
    ((∃ m ∈ inboundExample, (processInbound 0 inboundExample).1 = m.updateId) ∧
      ∀ m ∈ inboundExample, m.updateId ≤ (processInbound 0 inboundExample).1) ∧
    (processInbound 0 inboundExample).1 = 7 ∧
    parseCommand "garbage" = none :=
  ⟨command_cursor_highest 0 inboundExample (by decide) (by decide),
    by decide, by decide⟩

/-! § AMC API client (src/amc-api.ts) -/

/-- Errors surfaced by the API layer: either a human-readable Error thrown
by the axios response interceptor, or the underlying HTTP error with its
status code. -/
inductive ApiError where
  | humanReadable (msg : String)
  | httpError (status : Nat)
deriving Repr, DecidableEq

/-- The axios response interceptor of the AMCApiClient constructor: HTTP 429
becomes a distinct human-readable Error, HTTP 401 and 403 become another,
every other failure is passed through (an interceptor-thrown Error carries
no response object, so later status checks do not apply to it). -/
def interceptStatus (status : Nat) : ApiError :=
  if status == 429 then
    .humanReadable "Rate limited by AMC API. Please reduce polling frequency."
  else if status == 401 || status == 403 then
    .humanReadable "Invalid AMC API key or access denied."
  else .httpError status

/-- A showtime as delivered by the catalog (the AMCShowtime interface),
restricted to the fields the monitor consumes. -/
structure AMCShowtime where
  id : Nat
  showDateTimeUtc : String
  showDateTimeLocal : String
  auditorium : Option Nat
  isSoldOut : Bool
  isAlmostSoldOut : Bool
  attributes : List ShowAttr
deriving Repr, DecidableEq

/-- Outcome of the HTTP request for one movie at one theatre: the embedded
showtimes array, or a failing status code. -/
inductive FetchOutcome where
  | ok (showtimes : List AMCShowtime)
  | httpFail (status : Nat)
deriving Repr, DecidableEq

/-- Lexicographic order on character sequences by code point. -/
def charListLt : List Char → List Char → Bool
  | [], [] => false
  | [], _ :: _ => true
  | _ :: _, [] => false
  | a :: as, b :: bs =>
      if a.toNat < b.toNat then true
      else if b.toNat < a.toNat then false
      else charListLt as bs

/-- Lexicographic string comparison; on ISO-8601 UTC timestamps this
coincides with comparing the parsed Dates. -/
def strLt (a b : String) : Bool := charListLt a.data b.data

/-- The future-showtimes filter of getShowtimesForMovieAtTheatre: keep a
showtime when its UTC start is later than now. -/
def isFutureAt (now : String) (s : AMCShowtime) : Bool :=
  strLt now s.showDateTimeUtc

/-- AMCApiClient.getShowtimesForMovieAtTheatre: on success filter out past
showtimes; on failure the interceptor runs first, and the catch block turns
a remaining HTTP 404 into the empty list while every other error is
re-thrown. -/
def getShowtimesForMovieAtTheatre (now : String) (fetch : FetchOutcome) :
    Except ApiError (List AMCShowtime) :=
  match fetch with
  | .ok l => .ok (l.filter (isFutureAt now))
  | .httpFail status =>
      match interceptStatus status with
      | .httpError 404 => .ok []
      | e => .error e

/-! § Monitor run model (src/monitor.ts) -/

/-- One catalog movie that fuzzy matching selected for a watchlist entry,
together with the outcome of fetching its showtimes at the configured
theatre.  Fuzzy matching itself (Fuse.js) and the HTTP layer are external
collaborators, so their results are inputs of the run model. -/
structure MovieFetch where
  slug : String
  name : String
  fetch : FetchOutcome
deriving Repr, DecidableEq

/-- A row of the movies table, restricted to the columns the run consumes. -/
structure MovieRow where
  id : Nat
  slug : String
  name : String
deriving Repr, DecidableEq

/-- The persisted state a run touches: the movies table and the showtimes
table. -/
structure DbState where
  movies : List MovieRow
  nextMovieId : Nat
  showtimes : ShowtimeStore
deriving Repr, DecidableEq

/-- Effect of the ON CONFLICT(slug) DO UPDATE branch on one movie row. -/
def renameIf (mf : MovieFetch) (q : MovieRow) : MovieRow :=
  if q.slug == mf.slug then { q with name := mf.name } else q

/-- ShowtimeDatabase.upsertMovie: INSERT ... ON CONFLICT(slug) DO UPDATE
RETURNING id — an existing slug keeps its id and refreshes the metadata, a
new slug is inserted under the next primary key. -/
def upsertMovie (mf : MovieFetch) (db : DbState) : Nat × DbState :=
  match db.movies.find? (fun m => m.slug == mf.slug) with
  | some m =>
      (m.id, { db with movies := db.movies.map (renameIf mf) })
  | none =>
      (db.nextMovieId,
        { db with
          movies := db.movies ++ [⟨db.nextMovieId, mf.slug, mf.name⟩]
          nextMovieId := db.nextMovieId + 1 })

/-- JSON.stringify of the attribute array, modelled as a deterministic
encoding of the code/name pairs (its exact text is never inspected). -/
def attributesJson (attrs : List ShowAttr) : String :=
  String.join (attrs.map fun a => "(" ++ a.code ++ "," ++ a.name ++ ")")

/-- AMCApiClient.generateTicketUrl. -/
def generateTicketUrl (s : AMCShowtime) : String :=
  "https://www.amctheatres.com/showtimes/" ++ toString s.id ++ "/seats"

/-- The candidate handed to upsertShowtime by
ShowtimeMonitor.processMovieShowtimes for one fetched showtime. -/
def toCandidate (movieId theatreId : Nat) (s : AMCShowtime) : ShowtimeCandidate :=
  { movieId := movieId
    theatreId := theatreId
    showDateTime := s.showDateTimeUtc
    showDateTimeLocal := s.showDateTimeLocal
    auditorium := s.auditorium
    isSoldOut := s.isSoldOut
    isAlmostSoldOut := s.isAlmostSoldOut
    attributes := attributesJson s.attributes
    ticketUrl := some (generateTicketUrl s) }

/-- The notification object pushed for a new showtime (the TelegramMessage
interface of src/telegram.ts). -/
structure TelegramMessage where
  movieName : String
  theatreName : String
  showDateTime : String
  showDateTimeLocal : String
  auditorium : Option Nat
  attributes : List ShowAttr
  ticketUrl : Option String
  isSoldOut : Bool
  isAlmostSoldOut : Bool
deriving Repr, DecidableEq

def toMessage (movieName theatreName : String) (s : AMCShowtime) : TelegramMessage :=
  { movieName := movieName
    theatreName := theatreName
    showDateTime := s.showDateTimeUtc
    showDateTimeLocal := s.showDateTimeLocal
    auditorium := s.auditorium
    attributes := s.attributes
    ticketUrl := some (generateTicketUrl s)
    isSoldOut := s.isSoldOut
    isAlmostSoldOut := s.isAlmostSoldOut }

/-- Observable operations of one run, in program order: each upsert with its
result, each markShowtimeNotified call, and each attempt to post a batch
message to Telegram. -/
inductive RunEvent where
  | upserted (id : Nat) (isNew : Bool)
  | marked (id : Nat)
  | sent (movieName : String)
deriving Repr, DecidableEq

/-- The per-showtime loop of ShowtimeMonitor.processMovieShowtimes: upsert
the candidate; when the result is new, push a notification and immediately
mark the row notified. -/
def processShowtimeList (now movieName theatreName : String)
    (movieId theatreId : Nat) (db : DbState) :
    List AMCShowtime → DbState × List TelegramMessage × List RunEvent
  | [] => (db, [], [])
  | s :: rest =>
      let c := toCandidate movieId theatreId s
      let res := upsertShowtime now c db.showtimes
      if res.1.isNew then
        let db1 : DbState :=
          { db with showtimes := markShowtimeNotified res.1.id res.2 }
        let next := processShowtimeList now movieName theatreName movieId theatreId db1 rest
        (next.1, toMessage movieName theatreName s :: next.2.1,
          RunEvent.upserted res.1.id true :: RunEvent.marked res.1.id :: next.2.2)
      else
        let db1 : DbState := { db with showtimes := res.2 }
        let next := processShowtimeList now movieName theatreName movieId theatreId db1 rest
        (next.1, next.2.1, RunEvent.upserted res.1.id false :: next.2.2)

/-- Result of processing one fuzzy-matched movie. -/
structure MovieStepResult where
  db : DbState
  msgs : List TelegramMessage
  events : List RunEvent
  err : Option ApiError
deriving Repr, DecidableEq

/-- ShowtimeMonitor.processMovieShowtimes: upsert the movie row, fetch its
showtimes (errors propagate to the caller; the movie upsert has already been
committed), then run every fetched showtime through the deduplication
engine.  updateMovieLastChecked only touches the last_checked column, which
the model does not carry. -/
def processMovieShowtimes (now theatreName : String) (theatreId : Nat)
    (db : DbState) (mf : MovieFetch) : MovieStepResult :=
  let step := upsertMovie mf db
  match getShowtimesForMovieAtTheatre now mf.fetch with
  | .error e => ⟨step.2, [], [], some e⟩
  | .ok shows =>
      let r := processShowtimeList now mf.name theatreName step.1 theatreId step.2 shows
      ⟨r.1, r.2.1, r.2.2, none⟩

/-- The body of the per-watchlist-entry loop: process each fuzzy-matched
movie in order; an error thrown for one movie aborts the remaining movies
of this entry (it is caught by the per-entry try/catch of
checkForNewShowtimes). -/
def processEntry (now theatreName : String) (theatreId : Nat) (db : DbState) :
    List MovieFetch → DbState × List TelegramMessage × List RunEvent × Bool
  | [] => (db, [], [], false)
  | mf :: rest =>
      let r := processMovieShowtimes now theatreName theatreId db mf
      match r.err with
      | some _ => (r.db, r.msgs, r.events, true)
      | none =>
          let next := processEntry now theatreName theatreId r.db rest
          (next.1, r.msgs ++ next.2.1, r.events ++ next.2.2.1, next.2.2.2)

/-- Result of the watchlist loop of ShowtimeMonitor.checkForNewShowtimes. -/
structure RunResult where
  db : DbState
  msgs : List TelegramMessage
  events : List RunEvent
  flags : List Bool
deriving Repr, DecidableEq

/-- The watchlist loop of ShowtimeMonitor.checkForNewShowtimes: each entry is
processed inside try/catch — an error for one entry is logged and the loop
continues with the remaining entries; the per-entry caught-error flags are
recorded in order. -/
def checkForNewShowtimes (now theatreName : String) (theatreId : Nat)
    (db : DbState) : List (List MovieFetch) → RunResult
  | [] => ⟨db, [], [], []⟩
  | entry :: rest =>
      let r := processEntry now theatreName theatreId db entry
      let next := checkForNewShowtimes now theatreName theatreId r.1 rest
      ⟨next.db, r.2.1 ++ next.msgs, r.2.2.1 ++ next.events,
        r.2.2.2 :: next.flags⟩

theorem upsertMovie_showtimes (mf : MovieFetch) (db : DbState) :
    (upsertMovie mf db).2.showtimes = db.showtimes := by
  unfold upsertMovie
  cases hfind : db.movies.find? (fun m => m.slug == mf.slug) <;> simp [hfind]

/-! § C5: upstream API errors (429 / 401 / 403) -/

/-- A concrete future showtime in auditorium 7. -/
def show1 : AMCShowtime :=
  { id := 90001, showDateTimeUtc := "2026-01-05T03:00:00Z"
    showDateTimeLocal := "2026-01-04T19:00:00", auditorium := some 7
    isSoldOut := false, isAlmostSoldOut := false
    attributes := [⟨"IMAX", "IMAX"⟩] }

/-- A fuzzy-matched movie whose showtime fetch is rejected with HTTP 429. -/
def mfRateLimited : MovieFetch := ⟨"tron-ares", "Tron: Ares", .httpFail 429⟩

/-- A fuzzy-matched movie whose fetch succeeds with one future showtime. -/
def mfOkOne : MovieFetch := ⟨"minions", "Minions", .ok [show1]⟩

/-- The empty persisted state. -/
def dbEmpty : DbState := ⟨[], 1, emptyStore⟩

/-- C5 (counterexample): with two watchlist entries where the first hits an
HTTP 429, the run does not abort: the 429 is surfaced as the distinct
human-readable rate-limit Error, but the per-movie try/catch logs it and
the second entry is still fully processed — its showtime is inserted,
notified and queued. -/
theorem run_continues_after_rate_limit :
    (processMovieShowtimes "2025-10-11T00:00:00Z" "AMC Test 1" 609 dbEmpty
        mfRateLimited).err =
      some (ApiError.humanReadable
        "Rate limited by AMC API. Please reduce polling frequency.") ∧
    (checkForNewShowtimes "2025-10-11T00:00:00Z" "AMC Test 1" 609 dbEmpty
        [[mfRateLimited], [mfOkOne]]).flags = [true, false] ∧
    (checkForNewShowtimes "2025-10-11T00:00:00Z" "AMC Test 1" 609 dbEmpty
        [[mfRateLimited], [mfOkOne]]).events =
      [RunEvent.upserted 1 true, RunEvent.marked 1] ∧
    (checkForNewShowtimes "2025-10-11T00:00:00Z" "AMC Test 1" 609 dbEmpty
        [[mfRateLimited], [mfOkOne]]).db.showtimes.rows.length = 1 :=
  ⟨by decide, by decide, by decide, by decide⟩

/-- C5 (amended): a 429 (and a 401/403) from the catalog during a per-movie
showtime fetch is surfaced as a distinct human-readable error, that movie
contributes no notifications and no showtime-store changes, but the run
does not abort: the error is caught per watchlist entry and the remaining
entries are processed exactly as they would be from the resulting state. -/
theorem api_error_surfaced_and_caught (status : Nat)
    (hst : status = 429 ∨ status = 401 ∨ status = 403)
    (now theatreName : String) (theatreId : Nat) (db : DbState)
    (mf : MovieFetch) (hmf : mf.fetch = .httpFail status)
    (rest : List (List MovieFetch)) :
    (∃ msg, interceptStatus status = ApiError.humanReadable msg) ∧
    (processMovieShowtimes now theatreName theatreId db mf).err =
      some (interceptStatus status) ∧
    (processMovieShowtimes now theatreName theatreId db mf).msgs = [] ∧
    (processMovieShowtimes now theatreName theatreId db mf).db.showtimes =
      db.showtimes ∧
    (checkForNewShowtimes now theatreName theatreId db ([mf] :: rest)).flags =
      true :: (checkForNewShowtimes now theatreName theatreId
        (processMovieShowtimes now theatreName theatreId db mf).db rest).flags ∧
    (checkForNewShowtimes now theatreName theatreId db ([mf] :: rest)).msgs =
      (checkForNewShowtimes now theatreName theatreId
        (processMovieShowtimes now theatreName theatreId db mf).db rest).msgs := by
  have hhuman : ∃ msg, interceptStatus status = ApiError.humanReadable msg := by
    rcases hst with h | h | h <;> subst h <;> exact ⟨_, rfl⟩
  obtain ⟨msg, hmsg⟩ := hhuman
  have hget : getShowtimesForMovieAtTheatre now mf.fetch =
      .error (interceptStatus status) := by
    rw [hmf]
    simp only [getShowtimesForMovieAtTheatre]
    rw [hmsg]
  have hstep : processMovieShowtimes now theatreName theatreId db mf =
      ⟨(upsertMovie mf db).2, [], [], some (interceptStatus status)⟩ := by
    unfold processMovieShowtimes
    rw [hget]
  have hentry : processEntry now theatreName theatreId db [mf] =
      ((upsertMovie mf db).2, [], [], true) := by
    simp only [processEntry, hstep]
  have hcheck : checkForNewShowtimes now theatreName theatreId db ([mf] :: rest) =
      ⟨(checkForNewShowtimes now theatreName theatreId (upsertMovie mf db).2 rest).db,
        (checkForNewShowtimes now theatreName theatreId (upsertMovie mf db).2 rest).msgs,
        (checkForNewShowtimes now theatreName theatreId (upsertMovie mf db).2 rest).events,
        true :: (checkForNewShowtimes now theatreName theatreId
          (upsertMovie mf db).2 rest).flags⟩ := by
    conv_lhs => rw [checkForNewShowtimes]
    rw [hentry]
    rfl
  refine ⟨⟨msg, hmsg⟩, ?_, ?_, ?_, ?_, ?_⟩
  · rw [hstep]
  · rw [hstep]
  · rw [hstep]
    exact upsertMovie_showtimes mf db
  · rw [hcheck, hstep]
  · rw [hcheck, hstep]

/-- C5 (witness): the amended theorem at status 429 with one further entry. -/
theorem api_error_surfaced_and_caught_witness :
    (∃ msg, interceptStatus 429 = ApiError.humanReadable msg) ∧
    (processMovieShowtimes "2025-10-11T00:00:00Z" "AMC Test 1" 609 dbEmpty
        mfRateLimited).err = some (interceptStatus 429) ∧
    (processMovieShowtimes "2025-10-11T00:00:00Z" "AMC Test 1" 609 dbEmpty
        mfRateLimited).msgs = [] ∧
    (processMovieShowtimes "2025-10-11T00:00:00Z" "AMC Test 1" 609 dbEmpty
        mfRateLimited).db.showtimes = dbEmpty.showtimes ∧
    (checkForNewShowtimes "2025-10-11T00:00:00Z" "AMC Test 1" 609 dbEmpty
        ([mfRateLimited] :: [[mfOkOne]])).flags =
      true :: (checkForNewShowtimes "2025-10-11T00:00:00Z" "AMC Test 1" 609
        (processMovieShowtimes "2025-10-11T00:00:00Z" "AMC Test 1" 609 dbEmpty
          mfRateLimited).db [[mfOkOne]]).flags ∧
    (checkForNewShowtimes "2025-10-11T00:00:00Z" "AMC Test 1" 609 dbEmpty
        ([mfRateLimited] :: [[mfOkOne]])).msgs =
      (checkForNewShowtimes "2025-10-11T00:00:00Z" "AMC Test 1" 609
        (processMovieShowtimes "2025-10-11T00:00:00Z" "AMC Test 1" 609 dbEmpty
          mfRateLimited).db [[mfOkOne]]).msgs :=
  api_error_surfaced_and_caught 429 (Or.inl rfl) "2025-10-11T00:00:00Z"
    "AMC Test 1" 609 dbEmpty mfRateLimited rfl [[mfOkOne]]

/-! § C9: catalog 404 treated as zero showtimes -/

/-- C9: an HTTP 404 for one title at one theatre makes
getShowtimesForMovieAtTheatre return the empty list instead of an error;
the movie is processed without error and without notifications, and the
watchlist loop records no caught error for its entry and carries on. -/
theorem showtimes404_zero_not_error (now theatreName : String)
    (theatreId : Nat) (db : DbState) (mf : MovieFetch)
    (hmf : mf.fetch = .httpFail 404) (rest : List (List MovieFetch)) :
    getShowtimesForMovieAtTheatre now mf.fetch = .ok [] ∧
    (processMovieShowtimes now theatreName theatreId db mf).err = none ∧
    (processMovieShowtimes now theatreName theatreId db mf).msgs = [] ∧
    (processMovieShowtimes now theatreName theatreId db mf).db.showtimes =
      db.showtimes ∧
    (checkForNewShowtimes now theatreName theatreId db ([mf] :: rest)).flags =
      false :: (checkForNewShowtimes now theatreName theatreId
        (processMovieShowtimes now theatreName theatreId db mf).db rest).flags := by
  have hget : getShowtimesForMovieAtTheatre now mf.fetch = .ok [] := by
    rw [hmf]
    rfl
  have hstep : processMovieShowtimes now theatreName theatreId db mf =
      ⟨(upsertMovie mf db).2, [], [], none⟩ := by
    unfold processMovieShowtimes
    rw [hget]
    rfl
  have hentry : processEntry now theatreName theatreId db [mf] =
      ((upsertMovie mf db).2, [], [], false) := by
    simp only [processEntry, hstep]
    rfl
  have hcheck : checkForNewShowtimes now theatreName theatreId db ([mf] :: rest) =
      ⟨(checkForNewShowtimes now theatreName theatreId (upsertMovie mf db).2 rest).db,
        (checkForNewShowtimes now theatreName theatreId (upsertMovie mf db).2 rest).msgs,
        (checkForNewShowtimes now theatreName theatreId (upsertMovie mf db).2 rest).events,
        false :: (checkForNewShowtimes now theatreName theatreId
          (upsertMovie mf db).2 rest).flags⟩ := by
    conv_lhs => rw [checkForNewShowtimes]
    rw [hentry]
    rfl
  refine ⟨hget, ?_, ?_, ?_, ?_⟩
  · rw [hstep]
  · rw [hstep]
  · rw [hstep]
    exact upsertMovie_showtimes mf db
  · rw [hcheck, hstep]

/-- A fuzzy-matched movie whose showtime fetch is rejected with HTTP 404. -/
def mfNotFound : MovieFetch := ⟨"wicked", "Wicked", .httpFail 404⟩

/-- C9 (witness): the theorem at a concrete 404 fetch with one further entry. -/
theorem showtimes404_zero_not_error_witness :
    getShowtimesForMovieAtTheatre "2025-10-11T00:00:00Z" mfNotFound.fetch = .ok [] ∧
    (processMovieShowtimes "2025-10-11T00:00:00Z" "AMC Test 1" 609 dbEmpty
        mfNotFound).err = none ∧
    (processMovieShowtimes "2025-10-11T00:00:00Z" "AMC Test 1" 609 dbEmpty
        mfNotFound).msgs = [] ∧
    (processMovieShowtimes "2025-10-11T00:00:00Z" "AMC Test 1" 609 dbEmpty
        mfNotFound).db.showtimes = dbEmpty.showtimes ∧
    (checkForNewShowtimes "2025-10-11T00:00:00Z" "AMC Test 1" 609 dbEmpty
        ([mfNotFound] :: [[mfOkOne]])).flags =
      false :: (checkForNewShowtimes "2025-10-11T00:00:00Z" "AMC Test 1" 609
        (processMovieShowtimes "2025-10-11T00:00:00Z" "AMC Test 1" 609 dbEmpty
          mfNotFound).db [[mfOkOne]]).flags :=
  showtimes404_zero_not_error "2025-10-11T00:00:00Z" "AMC Test 1" 609 dbEmpty
    mfNotFound rfl [[mfOkOne]]

/-! § Telegram batching (src/telegram.ts) -/

/-- One step of the movieGroups construction in
TelegramBot.sendBatchNotification: a JS Map keyed by movieName, keys in
first-insertion order, each message pushed onto its bucket. -/
def insertGroup (acc : List (String × List TelegramMessage))
    (m : TelegramMessage) : List (String × List TelegramMessage) :=
  if acc.any (fun p => p.1 == m.movieName) then
    acc.map fun p => if p.1 == m.movieName then (p.1, p.2 ++ [m]) else p
  else acc ++ [(m.movieName, [m])]

/-- The grouping of sendBatchNotification: messages.forEach over the batch. -/
def groupByMovie (msgs : List TelegramMessage) :
    List (String × List TelegramMessage) :=
  msgs.foldl insertGroup []

/-- The comparator of formatBatchMessage: ascending by the parsed local
start time.  Date parsing is an external collaborator, modelled as an
arbitrary numeric interpretation of the time string. -/
def localTimeLe (parseTime : String → Int) (a b : TelegramMessage) : Prop :=
  parseTime a.showDateTimeLocal ≤ parseTime b.showDateTimeLocal

instance (parseTime : String → Int) : DecidableRel (localTimeLe parseTime) :=
  fun a b =>
    inferInstanceAs
      (Decidable (parseTime a.showDateTimeLocal ≤ parseTime b.showDateTimeLocal))

instance (parseTime : String → Int) :
    IsTotal TelegramMessage (localTimeLe parseTime) :=
  ⟨fun a b =>
    Int.le_total (parseTime a.showDateTimeLocal) (parseTime b.showDateTimeLocal)⟩

instance (parseTime : String → Int) :
    IsTrans TelegramMessage (localTimeLe parseTime) :=
  ⟨fun _ _ _ hab hbc => le_trans hab hbc⟩

/-- The messages.sort of formatBatchMessage, producing the order of the
rendered showtime lines. -/
def sortGroup (parseTime : String → Int) (msgs : List TelegramMessage) :
    List TelegramMessage :=
  List.insertionSort (localTimeLe parseTime) msgs

/-- The send loop of sendBatchNotification: one post per movie group in
group order; a failed post throws out of the loop, so nothing after the
failing group is attempted.  sendOk is the messaging channel outcome per
group; the result is the list of group keys posted and the key at which the
loop threw, if any. -/
def sendGroupLoop (sendOk : String → Bool) :
    List (String × List TelegramMessage) → List String × Option String
  | [] => ([], none)
  | (k, _) :: rest =>
      if sendOk k then
        let r := sendGroupLoop sendOk rest
        (k :: r.1, r.2)
      else ([], some k)

/-- TelegramBot.sendBatchNotification: group the batch by movie, then post
one formatted message per group. -/
def sendBatchNotification (sendOk : String → Bool)
    (msgs : List TelegramMessage) : List String × Option String :=
  sendGroupLoop sendOk (groupByMovie msgs)

/-- Invariant of the grouping fold: after consuming the messages in done,
the accumulator has pairwise-distinct keys, each bucket holds exactly the
consumed messages of its title in order, and every consumed message has a
bucket. -/
def GroupInv (done : List TelegramMessage)
    (acc : List (String × List TelegramMessage)) : Prop :=
  (acc.map Prod.fst).Nodup ∧
  (∀ p ∈ acc, p.2 = done.filter (fun m => m.movieName == p.1)) ∧
  (∀ m ∈ done, m.movieName ∈ acc.map Prod.fst)

theorem groupInv_insert (done : List TelegramMessage)
    (acc : List (String × List TelegramMessage)) (m : TelegramMessage)
    (h : GroupInv done acc) : GroupInv (done ++ [m]) (insertGroup acc m) := by
  obtain ⟨hnd, hbuck, hcover⟩ := h
  cases hany : acc.any (fun p => p.1 == m.movieName) with
  | true =>
    have hins : insertGroup acc m =
        acc.map fun p => if p.1 == m.movieName then (p.1, p.2 ++ [m]) else p := by
      unfold insertGroup
      rw [hany]
      rfl
    have hkeys : ((acc.map fun p =>
        if p.1 == m.movieName then (p.1, p.2 ++ [m]) else p).map Prod.fst) =
        acc.map Prod.fst := by
      rw [List.map_map]
      apply List.map_congr_left
      intro p _
      cases hp : p.1 == m.movieName
      · rw [Function.comp_apply, if_neg (by simp [hp])]
      · rw [Function.comp_apply, if_pos hp]
    rw [hins]
    refine ⟨?_, ?_, ?_⟩
    · rw [hkeys]
      exact hnd
    · intro p2 hp2
      obtain ⟨p, hp, hpe⟩ := List.mem_map.mp hp2
      cases hpm : p.1 == m.movieName with
      | true =>
          rw [hpm] at hpe
          rw [if_pos rfl] at hpe
          have hname : m.movieName = p.1 := (eq_of_beq hpm).symm
          subst hpe
          show p.2 ++ [m] = (done ++ [m]).filter (fun x => x.movieName == p.1)
          rw [List.filter_append, ← hbuck p hp]
          simp [hname]
      | false =>
          rw [hpm] at hpe
          rw [if_neg (by simp)] at hpe
          subst hpe
          have hname : (m.movieName == p.1) = false := by
            cases hmb : m.movieName == p.1
            · rfl
            · rw [show p.1 = m.movieName from (eq_of_beq hmb).symm,
                beq_self_eq_true] at hpm
              cases hpm
          rw [List.filter_append, ← hbuck p hp]
          simp [hname]
    · rw [hkeys]
      intro m2 hm2
      rcases List.mem_append.mp hm2 with hd | hm
      · exact hcover m2 hd
      · have : m2 = m := by simpa using hm
        subst this
        obtain ⟨p, hp, hpe⟩ := List.any_eq_true.mp hany
        rw [show m2.movieName = p.1 from (eq_of_beq hpe).symm]
        exact List.mem_map.mpr ⟨p, hp, rfl⟩
  | false =>
    have hins : insertGroup acc m = acc ++ [(m.movieName, [m])] := by
      unfold insertGroup
      rw [hany]
      rfl
    have hnotany : ∀ p ∈ acc, (p.1 == m.movieName) = false := by
      intro p hp
      cases hpb : p.1 == m.movieName
      · rfl
      · have hc : acc.any (fun p => p.1 == m.movieName) = true :=
          List.any_eq_true.mpr ⟨p, hp, hpb⟩
        rw [hany] at hc
        cases hc
    have hdone_none : done.filter (fun x => x.movieName == m.movieName) = [] := by
      rw [List.filter_eq_nil_iff]
      intro x hx hxb
      have hxk := hcover x hx
      obtain ⟨p, hp, hpe⟩ := List.mem_map.mp hxk
      have hcontra : (p.1 == m.movieName) = true := by
        rw [hpe]
        exact hxb
      rw [hnotany p hp] at hcontra
      cases hcontra
    rw [hins]
    refine ⟨?_, ?_, ?_⟩
    · rw [List.map_append, List.nodup_append]
      refine ⟨hnd, by simp, ?_⟩
      intro k hk
      obtain ⟨p, hp, hpe⟩ := List.mem_map.mp hk
      simp only [List.map_cons, List.map_nil, List.mem_singleton]
      intro hkm
      have hcontra : (p.1 == m.movieName) = true := by
        rw [hpe, hkm]
        exact beq_self_eq_true m.movieName
      rw [hnotany p hp] at hcontra
      cases hcontra
    · intro p2 hp2
      rcases List.mem_append.mp hp2 with hold | hnew
      · have hname : (m.movieName == p2.1) = false := by
          cases hmb : m.movieName == p2.1
          · rfl
          · have hcontra : (p2.1 == m.movieName) = true := by
              rw [eq_of_beq hmb]
              exact beq_self_eq_true _
            rw [hnotany p2 hold] at hcontra
            cases hcontra
        rw [List.filter_append, ← hbuck p2 hold]
        simp [hname]
      · have : p2 = (m.movieName, [m]) := by simpa using hnew
        subst this
        show [m] = (done ++ [m]).filter (fun x => x.movieName == m.movieName)
        rw [List.filter_append, hdone_none]
        simp
    · rw [List.map_append]
      intro m2 hm2
      rcases List.mem_append.mp hm2 with hd | hm
      · exact List.mem_append.mpr (Or.inl (hcover m2 hd))
      · have : m2 = m := by simpa using hm
        subst this
        exact List.mem_append.mpr (Or.inr (by simp))

theorem groupInv_foldl (msgs : List TelegramMessage) :
    ∀ (done : List TelegramMessage)
      (acc : List (String × List TelegramMessage)),
      GroupInv done acc → GroupInv (done ++ msgs) (msgs.foldl insertGroup acc) := by
  induction msgs with
  | nil => intro done acc h; simpa using h
  | cons m rest ih =>
      intro done acc h
      have hstep := groupInv_insert done acc m h
      have := ih (done ++ [m]) (insertGroup acc m) hstep
      simpa [List.append_assoc] using this

theorem groupByMovie_inv (msgs : List TelegramMessage) :
    GroupInv msgs (groupByMovie msgs) := by
  have h0 : GroupInv [] [] := by
    refine ⟨List.nodup_nil, ?_, ?_⟩ <;> intro x hx <;> cases hx
  simpa using groupInv_foldl msgs [] [] h0

/-! § C8: one message per title, lines sorted by local start time -/

/-- C8: for every non-empty notification batch, the batcher emits exactly
one outbound message per distinct title — the group keys are pairwise
distinct, every record's title has a group, and each group holds exactly
the records of its title — and within each message the showtime lines are
the group sorted ascending by local start time. -/
theorem batch_one_message_per_title_sorted (parseTime : String → Int)
    (msgs : List TelegramMessage) (hne : msgs ≠ []) :
    ((groupByMovie msgs).map Prod.fst).Nodup ∧
    (∀ m ∈ msgs, m.movieName ∈ (groupByMovie msgs).map Prod.fst) ∧
    (∀ p ∈ groupByMovie msgs,
      p.2 = msgs.filter (fun m => m.movieName == p.1)) ∧
    (∀ p ∈ groupByMovie msgs,
      (sortGroup parseTime p.2).Sorted (localTimeLe parseTime) ∧
        (sortGroup parseTime p.2).Perm p.2) ∧
    groupByMovie msgs ≠ [] := by
  obtain ⟨hnd, hbuck, hcover⟩ := groupByMovie_inv msgs
  refine ⟨hnd, hcover, hbuck, ?_, ?_⟩
  · intro p _
    exact ⟨List.sorted_insertionSort (localTimeLe parseTime) p.2,
      List.perm_insertionSort (localTimeLe parseTime) p.2⟩
  · intro hgnil
    obtain ⟨m, hm⟩ := List.exists_mem_of_ne_nil msgs hne
    have hmem := hcover m hm
    rw [hgnil] at hmem
    cases hmem

/-- Two showtimes of one title, out of local-time order, plus one of another
title. -/
def msgA1 : TelegramMessage :=
  { movieName := "Avatar", theatreName := "AMC Test 1"
    showDateTime := "2026-01-05T03:00:00Z"
    showDateTimeLocal := "2026-01-04T19:00:00", auditorium := some 7
    attributes := [⟨"IMAX", "IMAX"⟩], ticketUrl := none
    isSoldOut := false, isAlmostSoldOut := false }

def msgA2 : TelegramMessage :=
  { msgA1 with showDateTime := "2026-01-05T00:00:00Z"
               showDateTimeLocal := "2026-01-04T16:00:00" }

def msgB1 : TelegramMessage :=
  { msgA1 with movieName := "Minions", auditorium := some 2, attributes := [] }

def msgsExample : List TelegramMessage := [msgA1, msgB1, msgA2]

/-- A concrete stand-in for Date parsing: the length of the time string
(adequate for applying the theorem; its conclusions hold for every
interpretation). -/
def parseTimeLen (s : String) : Int := Int.ofNat s.data.length

/-- C8 (witness): the theorem at a concrete three-message batch covering two
titles. -/
theorem batch_one_message_per_title_sorted_witness :
    ((groupByMovie msgsExample).map Prod.fst).Nodup ∧
    (∀ m ∈ msgsExample, m.movieName ∈ (groupByMovie msgsExample).map Prod.fst) ∧
    (∀ p ∈ groupByMovie msgsExample,
      p.2 = msgsExample.filter (fun m => m.movieName == p.1)) ∧
    (∀ p ∈ groupByMovie msgsExample,
      (sortGroup parseTimeLen p.2).Sorted (localTimeLe parseTimeLen) ∧
        (sortGroup parseTimeLen p.2).Perm p.2) ∧
    groupByMovie msgsExample ≠ [] :=
  batch_one_message_per_title_sorted parseTimeLen msgsExample
    (List.cons_ne_nil msgA1 [msgB1, msgA2])

/-! § C4: marking precedes sending -/

/-- Is the event a send attempt. -/
def isSentEvent : RunEvent → Bool
  | .sent _ => true
  | _ => false

/-- Shape of the event list emitted by the processing phase: a sequence of
blocks, one per upserted showtime — either an update (isNew = false) alone,
or an insert (isNew = true) immediately followed by marking that row
notified. -/
inductive EventBlocks : List RunEvent → Prop where
  | nil : EventBlocks []
  | old (id : Nat) (rest : List RunEvent) :
      EventBlocks rest → EventBlocks (RunEvent.upserted id false :: rest)
  | new (id : Nat) (rest : List RunEvent) :
      EventBlocks rest →
      EventBlocks (RunEvent.upserted id true :: RunEvent.marked id :: rest)

theorem eventBlocks_append {l1 l2 : List RunEvent} (h1 : EventBlocks l1)
    (h2 : EventBlocks l2) : EventBlocks (l1 ++ l2) := by
  induction h1 with
  | nil => exact h2
  | old id rest hr ih => exact .old id _ ih
  | new id rest hr ih => exact .new id _ ih

theorem eventBlocks_not_sent {l : List RunEvent} (h : EventBlocks l) :
    ∀ e ∈ l, isSentEvent e = false := by
  induction h with
  | nil => intro e he; cases he
  | old id rest hr ih =>
      intro e he
      rcases List.mem_cons.mp he with rfl | hm
      · rfl
      · exact ih e hm
  | new id rest hr ih =>
      intro e he
      rcases List.mem_cons.mp he with rfl | he2
      · rfl
      · rcases List.mem_cons.mp he2 with rfl | hm
        · rfl
        · exact ih e hm

theorem eventBlocks_mark_follows {l : List RunEvent} (h : EventBlocks l) :
    ∀ (i : Nat) (hi : i < l.length) (id : Nat),
      l[i] = RunEvent.upserted id true →
      ∃ hi2 : i + 1 < l.length, l[i + 1] = RunEvent.marked id := by
  induction h with
  | nil => intro i hi; exact absurd hi (by simp)
  | old id0 rest hr ih =>
      intro i hi id hget
      cases i with
      | zero => simp at hget
      | succ n =>
          have hn : n < rest.length := by simpa using hi
          obtain ⟨h2, hm⟩ := ih n hn id (by simpa using hget)
          exact ⟨by simpa using Nat.succ_lt_succ h2, by simpa using hm⟩
  | new id0 rest hr ih =>
      intro i hi id hget
      match i with
      | 0 =>
          have hid : id0 = id := by simpa using hget
          subst hid
          exact ⟨by simp, by simp⟩
      | 1 => simp at hget
      | (n + 2) =>
          have hn : n < rest.length := by
            have := hi
            simp only [List.length_cons] at this
            omega
          obtain ⟨h2, hm⟩ := ih n hn id (by simpa using hget)
          refine ⟨?_, ?_⟩
          · simp only [List.length_cons]
            omega
          · simpa using hm

theorem processShowtimeList_blocks (now mn tn : String) (mid tid : Nat) :
    ∀ (shows : List AMCShowtime) (db : DbState),
      EventBlocks (processShowtimeList now mn tn mid tid db shows).2.2 := by
  intro shows
  induction shows with
  | nil => intro db; exact .nil
  | cons s rest ih =>
      intro db
      cases hnew : (upsertShowtime now (toCandidate mid tid s) db.showtimes).1.isNew
      · simp only [processShowtimeList, hnew, Bool.false_eq_true, if_false]
        exact .old _ _ (ih _)
      · simp only [processShowtimeList, hnew, if_true]
        exact .new _ _ (ih _)

theorem processMovieShowtimes_blocks (now tn : String) (tid : Nat)
    (db : DbState) (mf : MovieFetch) :
    EventBlocks (processMovieShowtimes now tn tid db mf).events := by
  unfold processMovieShowtimes
  cases hg : getShowtimesForMovieAtTheatre now mf.fetch with
  | error e =>
      simp only [hg]
      exact .nil
  | ok shows =>
      simp only [hg]
      exact processShowtimeList_blocks now mf.name tn _ tid shows _

theorem processEntry_blocks (now tn : String) (tid : Nat) :
    ∀ (mfs : List MovieFetch) (db : DbState),
      EventBlocks (processEntry now tn tid db mfs).2.2.1 := by
  intro mfs
  induction mfs with
  | nil => intro db; exact .nil
  | cons mf rest ih =>
      intro db
      cases herr : (processMovieShowtimes now tn tid db mf).err with
      | some e =>
          simp only [processEntry, herr]
          exact processMovieShowtimes_blocks now tn tid db mf
      | none =>
          simp only [processEntry, herr]
          exact eventBlocks_append (processMovieShowtimes_blocks now tn tid db mf)
            (ih _)

theorem checkForNewShowtimes_blocks (now tn : String) (tid : Nat) :
    ∀ (entries : List (List MovieFetch)) (db : DbState),
      EventBlocks (checkForNewShowtimes now tn tid db entries).events := by
  intro entries
  induction entries with
  | nil => intro db; exact .nil
  | cons entry rest ih =>
      intro db
      simp only [checkForNewShowtimes]
      exact eventBlocks_append (processEntry_blocks now tn tid entry db) (ih _)

/-- The send attempts of a run: the groups posted successfully followed by
the failed attempt, if the loop threw. -/
def sendAttempts (sendOk : String → Bool) (msgs : List TelegramMessage) :
    List String :=
  (sendBatchNotification sendOk msgs).1 ++
    (sendBatchNotification sendOk msgs).2.toList

/-- The trace of one full invocation: the watchlist-processing phase of
checkForNewShowtimes followed by the send phase, in program order. -/
def runTrace (now tn : String) (tid : Nat) (db : DbState)
    (entries : List (List MovieFetch)) (sendOk : String → Bool) :
    List RunEvent :=
  (checkForNewShowtimes now tn tid db entries).events ++
    (sendAttempts sendOk (checkForNewShowtimes now tn tid db entries).msgs).map
      RunEvent.sent

/-- C4: in every run, each upsert that returns isNew = true is immediately
followed by marking that row notified, and every marking strictly precedes
every attempt to send a notification message. -/
theorem mark_immediately_and_before_send (now tn : String) (tid : Nat)
    (db : DbState) (entries : List (List MovieFetch)) (sendOk : String → Bool) :
    (∀ (i : Nat) (hi : i < (runTrace now tn tid db entries sendOk).length)
        (id : Nat),
      (runTrace now tn tid db entries sendOk)[i] = RunEvent.upserted id true →
      ∃ hi2 : i + 1 < (runTrace now tn tid db entries sendOk).length,
        (runTrace now tn tid db entries sendOk)[i + 1] = RunEvent.marked id) ∧
    (∀ (i j : Nat) (hi : i < (runTrace now tn tid db entries sendOk).length)
        (hj : j < (runTrace now tn tid db entries sendOk).length)
        (id : Nat) (nm : String),
      (runTrace now tn tid db entries sendOk)[i] = RunEvent.marked id →
      (runTrace now tn tid db entries sendOk)[j] = RunEvent.sent nm →
      i < j) := by
  have hblocks := checkForNewShowtimes_blocks now tn tid entries db
  have hsent_part : ∀ (k : Nat)
      (hk : k < ((sendAttempts sendOk
        (checkForNewShowtimes now tn tid db entries).msgs).map RunEvent.sent).length),
      ∃ nm, ((sendAttempts sendOk
        (checkForNewShowtimes now tn tid db entries).msgs).map RunEvent.sent)[k] =
        RunEvent.sent nm := by
    intro k hk
    have hmem := List.getElem_mem hk
    obtain ⟨nm, _, hnm⟩ := List.mem_map.mp hmem
    exact ⟨nm, hnm.symm⟩
  constructor
  · intro i hi id hget
    simp only [runTrace] at hi hget ⊢
    have hi1 : i < (checkForNewShowtimes now tn tid db entries).events.length := by
      by_contra hge
      push_neg at hge
      have heq := @List.getElem_append_right _ _ _ _ hge hi
      rw [heq] at hget
      obtain ⟨nm, hnm⟩ := hsent_part
        (i - (checkForNewShowtimes now tn tid db entries).events.length) (by
          simp only [List.length_append] at hi
          omega)
      rw [hget] at hnm
      cases hnm
    obtain ⟨h2, hm⟩ := eventBlocks_mark_follows hblocks i hi1 id (by
      rw [← List.getElem_append_left hi1]
      exact hget)
    have h2t : i + 1 <
        ((checkForNewShowtimes now tn tid db entries).events ++
          (sendAttempts sendOk
            (checkForNewShowtimes now tn tid db entries).msgs).map
            RunEvent.sent).length := by
      simp only [List.length_append]
      omega
    refine ⟨h2t, ?_⟩
    rw [List.getElem_append_left h2]
    exact hm
  · intro i j hi hj id nm hmark hsent
    simp only [runTrace] at hi hj hmark hsent
    have hi1 : i < (checkForNewShowtimes now tn tid db entries).events.length := by
      by_contra hge
      push_neg at hge
      have heq := @List.getElem_append_right _ _ _ _ hge hi
      rw [heq] at hmark
      obtain ⟨nm2, hnm2⟩ := hsent_part
        (i - (checkForNewShowtimes now tn tid db entries).events.length) (by
          simp only [List.length_append] at hi
          omega)
      rw [hmark] at hnm2
      cases hnm2
    have hj1 : (checkForNewShowtimes now tn tid db entries).events.length ≤ j := by
      by_contra hgt
      push_neg at hgt
      have heq := @List.getElem_append_left _ _ _ _ hgt hj
      rw [heq] at hsent
      have hns := eventBlocks_not_sent hblocks _ (hsent ▸ List.getElem_mem hgt)
      simp [isSentEvent] at hns
    omega

/-- C4 (witness): a run over one entry with one new showtime and a
successful send; its trace is upsert, mark, send, so the mark at index 1 is
immediately after the upsert at index 0 and strictly before the send at
index 2. -/
theorem mark_immediately_and_before_send_witness :
    (∃ hi2 : (0 : Nat) + 1 < (runTrace "2025-10-11T00:00:00Z" "AMC Test 1" 609
        dbEmpty [[mfOkOne]] (fun _ => true)).length,
      (runTrace "2025-10-11T00:00:00Z" "AMC Test 1" 609 dbEmpty [[mfOkOne]]
        (fun _ => true))[0 + 1] = RunEvent.marked 1) ∧
    (1 : Nat) < 2 :=
  ⟨(mark_immediately_and_before_send "2025-10-11T00:00:00Z" "AMC Test 1" 609
      dbEmpty [[mfOkOne]] (fun _ => true)).1 0 (by decide) 1 (by decide),
    (mark_immediately_and_before_send "2025-10-11T00:00:00Z" "AMC Test 1" 609
      dbEmpty [[mfOkOne]] (fun _ => true)).2 1 2 (by decide) (by decide) 1
      "Minions" (by decide) (by decide)⟩

/-! § C10 groundwork: key presence, id bounds and movie-id stability -/

/-- All primary keys lie below the next synthetic key. -/
def idsBelowNext (st : ShowtimeStore) : Prop :=
  ∀ r ∈ st.rows, r.id < st.nextId

/-- The natural key of candidate c has a row in the store (under the SQL
lookup semantics of the engine). -/
def keyPresent (c : ShowtimeCandidate) (st : ShowtimeStore) : Prop :=
  ∃ r ∈ st.rows, matchesKey c r = true

theorem matchesKey_updIf (c c2 : ShowtimeCandidate) (i : Nat) (q : ShowtimeRow) :
    matchesKey c (updIf c2 i q) = matchesKey c q := by
  unfold updIf
  cases hq : q.id == i <;> simp [hq, updateRow, matchesKey]

theorem matchesKey_markIf (c : ShowtimeCandidate) (i : Nat) (q : ShowtimeRow) :
    matchesKey c (markIf i q) = matchesKey c q := by
  unfold markIf
  cases hq : q.id == i <;> simp [hq, matchesKey]

theorem idsBelowNext_upsert (now : String) (c : ShowtimeCandidate)
    (st : ShowtimeStore) (h : idsBelowNext st) :
    idsBelowNext (upsertShowtime now c st).2 := by
  cases hfind : st.rows.find? (matchesKey c) with
  | some r =>
      intro q hq
      simp only [upsertShowtime, hfind] at hq ⊢
      obtain ⟨q0, hq0, hqe⟩ := List.mem_map.mp hq
      rw [← hqe, updIf_id]
      exact h q0 hq0
  | none =>
      intro q hq
      simp only [upsertShowtime, hfind] at hq ⊢
      rcases List.mem_append.mp hq with hold | hnew
      · exact Nat.lt_succ_of_lt (h q hold)
      · have : q = insertRow now c st.nextId := by simpa using hnew
        subst this
        exact Nat.lt_succ_self _

theorem idsBelowNext_mark (i : Nat) (st : ShowtimeStore) (h : idsBelowNext st) :
    idsBelowNext (markShowtimeNotified i st) := by
  intro q hq
  simp only [markShowtimeNotified] at hq ⊢
  obtain ⟨q0, hq0, hqe⟩ := List.mem_map.mp hq
  rw [← hqe, markIf_id]
  exact h q0 hq0

theorem keyPresent_upsert_self (now : String) (c : ShowtimeCandidate)
    (st : ShowtimeStore) (ha : c.auditorium.isSome = true) :
    keyPresent c (upsertShowtime now c st).2 := by
  cases hfind : st.rows.find? (matchesKey c) with
  | some r =>
      have hr := List.find?_some hfind
      have hmem := List.mem_of_find?_eq_some hfind
      refine ⟨updIf c r.id r, ?_, ?_⟩
      · simp only [upsertShowtime, hfind]
        exact List.mem_map.mpr ⟨r, hmem, rfl⟩
      · rw [matchesKey_updIf]
        exact hr
  | none =>
      obtain ⟨a, hae⟩ := Option.isSome_iff_exists.mp ha
      refine ⟨insertRow now c st.nextId, ?_, ?_⟩
      · simp only [upsertShowtime, hfind]
        exact List.mem_append.mpr (Or.inr (by simp))
      · exact matchesKey_insertRow c now st.nextId a hae

theorem keyPresent_mono_upsert (c : ShowtimeCandidate) (now : String)
    (c2 : ShowtimeCandidate) (st : ShowtimeStore) (h : keyPresent c st) :
    keyPresent c (upsertShowtime now c2 st).2 := by
  obtain ⟨r, hr, hm⟩ := h
  cases hfind : st.rows.find? (matchesKey c2) with
  | some r2 =>
      refine ⟨updIf c2 r2.id r, ?_, ?_⟩
      · simp only [upsertShowtime, hfind]
        exact List.mem_map.mpr ⟨r, hr, rfl⟩
      · rw [matchesKey_updIf]
        exact hm
  | none =>
      refine ⟨r, ?_, hm⟩
      simp only [upsertShowtime, hfind]
      exact List.mem_append.mpr (Or.inl hr)

theorem keyPresent_mono_mark (c : ShowtimeCandidate) (i : Nat)
    (st : ShowtimeStore) (h : keyPresent c st) :
    keyPresent c (markShowtimeNotified i st) := by
  obtain ⟨r, hr, hm⟩ := h
  refine ⟨markIf i r, ?_, ?_⟩
  · simp only [markShowtimeNotified]
    exact List.mem_map.mpr ⟨r, hr, rfl⟩
  · rw [matchesKey_markIf]
    exact hm

theorem upsert_present_not_new (now : String) (c : ShowtimeCandidate)
    (st : ShowtimeStore) (h : keyPresent c st) :
    (upsertShowtime now c st).1.isNew = false := by
  obtain ⟨r, hr, hm⟩ := h
  cases hfind : st.rows.find? (matchesKey c) with
  | some r2 => simp [upsertShowtime, hfind]
  | none =>
      have := List.find?_eq_none.mp hfind r hr
      rw [hm] at this
      cases this rfl

theorem upsert_new_marked_notified (now : String) (c : ShowtimeCandidate)
    (st : ShowtimeStore) (h : idsBelowNext st)
    (hnew : (upsertShowtime now c st).1.isNew = true) :
    (findRow (markShowtimeNotified (upsertShowtime now c st).1.id
      (upsertShowtime now c st).2) (upsertShowtime now c st).1.id).map
      ShowtimeRow.notified = some true := by
  cases hfind : st.rows.find? (matchesKey c) with
  | some r =>
      rw [show (upsertShowtime now c st).1.isNew = false by
        simp [upsertShowtime, hfind]] at hnew
      cases hnew
  | none =>
      have hid : (upsertShowtime now c st).1.id = st.nextId := by
        simp [upsertShowtime, hfind]
      have hst2 : (upsertShowtime now c st).2 =
          ⟨st.rows ++ [insertRow now c st.nextId], st.nextId + 1⟩ := by
        simp [upsertShowtime, hfind]
      rw [hid, hst2]
      simp only [markShowtimeNotified, findRow]
      rw [find?_id_map _ (markIf_id st.nextId), List.find?_append]
      have hnone : st.rows.find? (fun r => r.id == st.nextId) = none := by
        rw [List.find?_eq_none]
        intro r hr
        simp [Nat.ne_of_lt (h r hr)]
      rw [hnone]
      simp [insertRow, markIf]

theorem processShowtimeList_movies (now mn tn : String) (mid tid : Nat) :
    ∀ (shows : List AMCShowtime) (db : DbState),
      (processShowtimeList now mn tn mid tid db shows).1.movies = db.movies ∧
      (processShowtimeList now mn tn mid tid db shows).1.nextMovieId =
        db.nextMovieId := by
  intro shows
  induction shows with
  | nil => intro db; exact ⟨rfl, rfl⟩
  | cons s rest ih =>
      intro db
      cases hnew : (upsertShowtime now (toCandidate mid tid s) db.showtimes).1.isNew
      · simp only [processShowtimeList, hnew, Bool.false_eq_true, if_false]
        exact ih _
      · simp only [processShowtimeList, hnew, if_true]
        exact ih _

theorem idsBelowNext_processShowtimeList (now mn tn : String) (mid tid : Nat) :
    ∀ (shows : List AMCShowtime) (db : DbState),
      idsBelowNext db.showtimes →
      idsBelowNext (processShowtimeList now mn tn mid tid db shows).1.showtimes := by
  intro shows
  induction shows with
  | nil => intro db h; exact h
  | cons s rest ih =>
      intro db h
      cases hnew : (upsertShowtime now (toCandidate mid tid s) db.showtimes).1.isNew
      · simp only [processShowtimeList, hnew, Bool.false_eq_true, if_false]
        exact ih _ (idsBelowNext_upsert now _ db.showtimes h)
      · simp only [processShowtimeList, hnew, if_true]
        exact ih _ (idsBelowNext_mark _ _ (idsBelowNext_upsert now _ db.showtimes h))

theorem notified_stays_processShowtimeList (now mn tn : String) (mid tid : Nat) :
    ∀ (shows : List AMCShowtime) (db : DbState) (i : Nat),
      (findRow db.showtimes i).map ShowtimeRow.notified = some true →
      (findRow (processShowtimeList now mn tn mid tid db shows).1.showtimes i).map
        ShowtimeRow.notified = some true := by
  intro shows
  induction shows with
  | nil => intro db i h; exact h
  | cons s rest ih =>
      intro db i h
      cases hnew : (upsertShowtime now (toCandidate mid tid s) db.showtimes).1.isNew
      · simp only [processShowtimeList, hnew, Bool.false_eq_true, if_false]
        exact ih _ i (notified_stays_upsert now _ db.showtimes i h)
      · simp only [processShowtimeList, hnew, if_true]
        exact ih _ i (notified_stays_mark _ _ i
          (notified_stays_upsert now _ db.showtimes i h))

theorem keyPresent_mono_processShowtimeList (now mn tn : String) (mid tid : Nat)
    (c : ShowtimeCandidate) :
    ∀ (shows : List AMCShowtime) (db : DbState),
      keyPresent c db.showtimes →
      keyPresent c (processShowtimeList now mn tn mid tid db shows).1.showtimes := by
  intro shows
  induction shows with
  | nil => intro db h; exact h
  | cons s rest ih =>
      intro db h
      cases hnew : (upsertShowtime now (toCandidate mid tid s) db.showtimes).1.isNew
      · simp only [processShowtimeList, hnew, Bool.false_eq_true, if_false]
        exact ih _ (keyPresent_mono_upsert c now _ db.showtimes h)
      · simp only [processShowtimeList, hnew, if_true]
        exact ih _ (keyPresent_mono_mark c _ _
          (keyPresent_mono_upsert c now _ db.showtimes h))

theorem marked_notified_processShowtimeList (now mn tn : String) (mid tid : Nat) :
    ∀ (shows : List AMCShowtime) (db : DbState),
      idsBelowNext db.showtimes →
      ∀ id, RunEvent.marked id ∈ (processShowtimeList now mn tn mid tid db shows).2.2 →
        (findRow (processShowtimeList now mn tn mid tid db shows).1.showtimes id).map
          ShowtimeRow.notified = some true := by
  intro shows
  induction shows with
  | nil => intro db hwf id hmem; cases hmem
  | cons s rest ih =>
      intro db hwf id hmem
      cases hnew : (upsertShowtime now (toCandidate mid tid s) db.showtimes).1.isNew
      · simp only [processShowtimeList, hnew, Bool.false_eq_true, if_false] at hmem ⊢
        rcases List.mem_cons.mp hmem with habs | hmem2
        · cases habs
        · exact ih _ (idsBelowNext_upsert now _ db.showtimes hwf) id hmem2
      · simp only [processShowtimeList, hnew, if_true] at hmem ⊢
        rcases List.mem_cons.mp hmem with habs | hmem2
        · cases habs
        · rcases List.mem_cons.mp hmem2 with hself | hmem3
          · have hid : id = (upsertShowtime now (toCandidate mid tid s)
                db.showtimes).1.id := by
              cases hself
              rfl
            subst hid
            exact notified_stays_processShowtimeList now mn tn mid tid rest _ _
              (upsert_new_marked_notified now _ db.showtimes hwf hnew)
          · exact ih _ (idsBelowNext_mark _ _
              (idsBelowNext_upsert now _ db.showtimes hwf)) id hmem3

theorem present_after_processShowtimeList (now mn tn : String) (mid tid : Nat) :
    ∀ (shows : List AMCShowtime) (db : DbState),
      (∀ s ∈ shows, s.auditorium.isSome = true) →
      ∀ s ∈ shows,
        keyPresent (toCandidate mid tid s)
          (processShowtimeList now mn tn mid tid db shows).1.showtimes := by
  intro shows
  induction shows with
  | nil => intro db hall s hs; cases hs
  | cons s0 rest ih =>
      intro db hall s hs
      have hsome0 : s0.auditorium.isSome = true := hall s0 (by simp)
      rcases List.mem_cons.mp hs with rfl | hrest
      · cases hnew : (upsertShowtime now (toCandidate mid tid s) db.showtimes).1.isNew
        · simp only [processShowtimeList, hnew, Bool.false_eq_true, if_false]
          exact keyPresent_mono_processShowtimeList now mn tn mid tid _ rest _
            (keyPresent_upsert_self now _ db.showtimes hsome0)
        · simp only [processShowtimeList, hnew, if_true]
          exact keyPresent_mono_processShowtimeList now mn tn mid tid _ rest _
            (keyPresent_mono_mark _ _ _
              (keyPresent_upsert_self now _ db.showtimes hsome0))
      · cases hnew : (upsertShowtime now (toCandidate mid tid s0) db.showtimes).1.isNew
        · simp only [processShowtimeList, hnew, Bool.false_eq_true, if_false]
          exact ih _ (fun x hx => hall x (by simp [hx])) s hrest
        · simp only [processShowtimeList, hnew, if_true]
          exact ih _ (fun x hx => hall x (by simp [hx])) s hrest

theorem silent_processShowtimeList (now mn tn : String) (mid tid : Nat) :
    ∀ (shows : List AMCShowtime) (db : DbState),
      (∀ s ∈ shows, keyPresent (toCandidate mid tid s) db.showtimes) →
      (processShowtimeList now mn tn mid tid db shows).2.1 = [] := by
  intro shows
  induction shows with
  | nil => intro db hall; rfl
  | cons s0 rest ih =>
      intro db hall
      have hnew : (upsertShowtime now (toCandidate mid tid s0)
          db.showtimes).1.isNew = false :=
        upsert_present_not_new now _ db.showtimes (hall s0 (by simp))
      simp only [processShowtimeList, hnew, Bool.false_eq_true, if_false]
      exact ih _ (fun x hx =>
        keyPresent_mono_upsert _ now _ db.showtimes (hall x (by simp [hx])))

/-- The id stored for a slug in the movies table. -/
def movieIdOf (db : DbState) (slug : String) : Option Nat :=
  (db.movies.find? fun m => m.slug == slug).map MovieRow.id

theorem renameIf_slug (mf : MovieFetch) (q : MovieRow) :
    (renameIf mf q).slug = q.slug := by
  unfold renameIf
  cases hq : q.slug == mf.slug <;> simp [hq]

theorem renameIf_id (mf : MovieFetch) (q : MovieRow) :
    (renameIf mf q).id = q.id := by
  unfold renameIf
  cases hq : q.slug == mf.slug <;> simp [hq]

theorem find?_slug_map (f : MovieRow → MovieRow)
    (hf : ∀ q, (f q).slug = q.slug) (l : List MovieRow) (s : String) :
    (l.map f).find? (fun m => m.slug == s) =
      (l.find? (fun m => m.slug == s)).map f := by
  rw [List.find?_map]
  have h : ((fun m : MovieRow => m.slug == s) ∘ f) =
      fun q : MovieRow => q.slug == s := by
    funext q
    simp [Function.comp, hf]
  rw [h]

theorem upsertMovie_id_eq (mf : MovieFetch) (db : DbState) :
    movieIdOf (upsertMovie mf db).2 mf.slug = some (upsertMovie mf db).1 := by
  cases hfind : db.movies.find? (fun m => m.slug == mf.slug) with
  | some m =>
      simp only [upsertMovie, hfind, movieIdOf]
      rw [find?_slug_map _ (renameIf_slug mf), hfind]
      simp [renameIf_id]
  | none =>
      simp only [upsertMovie, hfind, movieIdOf]
      rw [List.find?_append, hfind]
      simp

theorem movieIdOf_mono_upsertMovie (mf : MovieFetch) (db : DbState)
    (s : String) (i : Nat) (h : movieIdOf db s = some i) :
    movieIdOf (upsertMovie mf db).2 s = some i := by
  obtain ⟨q, hq, hqi⟩ : ∃ q, db.movies.find? (fun m => m.slug == s) = some q ∧
      q.id = i := by
    unfold movieIdOf at h
    cases hfq : db.movies.find? (fun m => m.slug == s) with
    | none => rw [hfq] at h; cases h
    | some q =>
        rw [hfq] at h
        exact ⟨q, rfl, by simpa using h⟩
  cases hfind : db.movies.find? (fun m => m.slug == mf.slug) with
  | some m =>
      simp only [upsertMovie, hfind, movieIdOf]
      rw [find?_slug_map _ (renameIf_slug mf), hq]
      simp [renameIf_id, hqi]
  | none =>
      simp only [upsertMovie, hfind, movieIdOf]
      rw [List.find?_append, hq]
      simp [hqi]

theorem upsertMovie_uses_existing (mf : MovieFetch) (db : DbState) (i : Nat)
    (h : movieIdOf db mf.slug = some i) : (upsertMovie mf db).1 = i := by
  obtain ⟨q, hq, hqi⟩ : ∃ q, db.movies.find? (fun m => m.slug == mf.slug) =
      some q ∧ q.id = i := by
    unfold movieIdOf at h
    cases hfq : db.movies.find? (fun m => m.slug == mf.slug) with
    | none => rw [hfq] at h; cases h
    | some q =>
        rw [hfq] at h
        exact ⟨q, rfl, by simpa using h⟩
  simp [upsertMovie, hq, hqi]

theorem movieIdOf_eq_of_movies_eq (db1 db2 : DbState) (s : String)
    (h : db1.movies = db2.movies) : movieIdOf db1 s = movieIdOf db2 s := by
  unfold movieIdOf
  rw [h]

/-! processMovieShowtimes-level lemmas -/

theorem processMovieShowtimes_ok (now tn : String) (tid : Nat) (db : DbState)
    (mf : MovieFetch) (l : List AMCShowtime) (hmf : mf.fetch = .ok l) :
    processMovieShowtimes now tn tid db mf =
      ⟨(processShowtimeList now mf.name tn (upsertMovie mf db).1 tid
          (upsertMovie mf db).2 (l.filter (isFutureAt now))).1,
        (processShowtimeList now mf.name tn (upsertMovie mf db).1 tid
          (upsertMovie mf db).2 (l.filter (isFutureAt now))).2.1,
        (processShowtimeList now mf.name tn (upsertMovie mf db).1 tid
          (upsertMovie mf db).2 (l.filter (isFutureAt now))).2.2, none⟩ := by
  unfold processMovieShowtimes
  rw [hmf]
  rfl

theorem idsBelowNext_processMovieShowtimes (now tn : String) (tid : Nat)
    (db : DbState) (mf : MovieFetch) (h : idsBelowNext db.showtimes) :
    idsBelowNext (processMovieShowtimes now tn tid db mf).db.showtimes := by
  unfold processMovieShowtimes
  cases hg : getShowtimesForMovieAtTheatre now mf.fetch with
  | error e =>
      simp only [hg]
      rw [upsertMovie_showtimes]
      exact h
  | ok shows =>
      simp only [hg]
      exact idsBelowNext_processShowtimeList now mf.name tn _ tid shows _
        (by rw [upsertMovie_showtimes]; exact h)

theorem notified_stays_processMovieShowtimes (now tn : String) (tid : Nat)
    (db : DbState) (mf : MovieFetch) (i : Nat)
    (h : (findRow db.showtimes i).map ShowtimeRow.notified = some true) :
    (findRow (processMovieShowtimes now tn tid db mf).db.showtimes i).map
      ShowtimeRow.notified = some true := by
  unfold processMovieShowtimes
  cases hg : getShowtimesForMovieAtTheatre now mf.fetch with
  | error e =>
      simp only [hg]
      rw [upsertMovie_showtimes]
      exact h
  | ok shows =>
      simp only [hg]
      exact notified_stays_processShowtimeList now mf.name tn _ tid shows _ i
        (by rw [upsertMovie_showtimes]; exact h)

theorem keyPresent_mono_processMovieShowtimes (now tn : String) (tid : Nat)
    (db : DbState) (mf : MovieFetch) (c : ShowtimeCandidate)
    (h : keyPresent c db.showtimes) :
    keyPresent c (processMovieShowtimes now tn tid db mf).db.showtimes := by
  unfold processMovieShowtimes
  cases hg : getShowtimesForMovieAtTheatre now mf.fetch with
  | error e =>
      simp only [hg]
      rw [upsertMovie_showtimes]
      exact h
  | ok shows =>
      simp only [hg]
      exact keyPresent_mono_processShowtimeList now mf.name tn _ tid c shows _
        (by rw [upsertMovie_showtimes]; exact h)

theorem movieIdOf_mono_processMovieShowtimes (now tn : String) (tid : Nat)
    (db : DbState) (mf : MovieFetch) (s : String) (i : Nat)
    (h : movieIdOf db s = some i) :
    movieIdOf (processMovieShowtimes now tn tid db mf).db s = some i := by
  unfold processMovieShowtimes
  cases hg : getShowtimesForMovieAtTheatre now mf.fetch with
  | error e =>
      simp only [hg]
      exact movieIdOf_mono_upsertMovie mf db s i h
  | ok shows =>
      simp only [hg]
      rw [movieIdOf_eq_of_movies_eq _ (upsertMovie mf db).2 s
        (processShowtimeList_movies now mf.name tn _ tid shows _).1]
      exact movieIdOf_mono_upsertMovie mf db s i h

theorem marked_notified_processMovieShowtimes (now tn : String) (tid : Nat)
    (db : DbState) (mf : MovieFetch) (hwf : idsBelowNext db.showtimes) :
    ∀ id, RunEvent.marked id ∈ (processMovieShowtimes now tn tid db mf).events →
      (findRow (processMovieShowtimes now tn tid db mf).db.showtimes id).map
        ShowtimeRow.notified = some true := by
  unfold processMovieShowtimes
  cases hg : getShowtimesForMovieAtTheatre now mf.fetch with
  | error e =>
      simp only [hg]
      intro id hmem
      cases hmem
  | ok shows =>
      simp only [hg]
      intro id hmem
      exact marked_notified_processShowtimeList now mf.name tn _ tid shows _
        (by rw [upsertMovie_showtimes]; exact hwf) id hmem

theorem processMovieShowtimes_post (now tn : String) (tid : Nat)
    (db : DbState) (mf : MovieFetch) (l : List AMCShowtime)
    (hmf : mf.fetch = .ok l) (hall : ∀ s ∈ l, s.auditorium.isSome = true) :
    ∃ i, movieIdOf (processMovieShowtimes now tn tid db mf).db mf.slug = some i ∧
      ∀ s ∈ l, isFutureAt now s = true →
        keyPresent (toCandidate i tid s)
          (processMovieShowtimes now tn tid db mf).db.showtimes := by
  rw [processMovieShowtimes_ok now tn tid db mf l hmf]
  refine ⟨(upsertMovie mf db).1, ?_, ?_⟩
  · show movieIdOf (processShowtimeList now mf.name tn (upsertMovie mf db).1 tid
      (upsertMovie mf db).2 (l.filter (isFutureAt now))).1 mf.slug = _
    rw [movieIdOf_eq_of_movies_eq _ (upsertMovie mf db).2 mf.slug
      (processShowtimeList_movies now mf.name tn _ tid _ _).1]
    exact upsertMovie_id_eq mf db
  · intro s hs hfut
    have hmem : s ∈ l.filter (isFutureAt now) :=
      List.mem_filter.mpr ⟨hs, hfut⟩
    have haud : (toCandidate (upsertMovie mf db).1 tid s).auditorium.isSome = true :=
      hall s hs
    exact present_after_processShowtimeList now mf.name tn _ tid _ _
      (fun x hx => hall x (List.mem_filter.mp hx).1) s hmem

theorem silent_processMovieShowtimes (now2 tn : String) (tid : Nat)
    (db : DbState) (mf : MovieFetch) (l : List AMCShowtime) (i : Nat)
    (hmf : mf.fetch = .ok l) (hmid : movieIdOf db mf.slug = some i)
    (hpres : ∀ s ∈ l, isFutureAt now2 s = true →
      keyPresent (toCandidate i tid s) db.showtimes) :
    (processMovieShowtimes now2 tn tid db mf).msgs = [] := by
  rw [processMovieShowtimes_ok now2 tn tid db mf l hmf]
  show (processShowtimeList now2 mf.name tn (upsertMovie mf db).1 tid
    (upsertMovie mf db).2 (l.filter (isFutureAt now2))).2.1 = []
  rw [upsertMovie_uses_existing mf db i hmid]
  apply silent_processShowtimeList
  intro s hs
  rw [upsertMovie_showtimes]
  obtain ⟨hsl, hsf⟩ := List.mem_filter.mp hs
  exact hpres s hsl hsf

/-! processEntry-level lemmas -/

theorem idsBelowNext_processEntry (now tn : String) (tid : Nat) :
    ∀ (mfs : List MovieFetch) (db : DbState), idsBelowNext db.showtimes →
      idsBelowNext (processEntry now tn tid db mfs).1.showtimes := by
  intro mfs
  induction mfs with
  | nil => intro db h; exact h
  | cons mf rest ih =>
      intro db h
      cases herr : (processMovieShowtimes now tn tid db mf).err with
      | some e =>
          simp only [processEntry, herr]
          exact idsBelowNext_processMovieShowtimes now tn tid db mf h
      | none =>
          simp only [processEntry, herr]
          exact ih _ (idsBelowNext_processMovieShowtimes now tn tid db mf h)

theorem notified_stays_processEntry (now tn : String) (tid : Nat) :
    ∀ (mfs : List MovieFetch) (db : DbState) (i : Nat),
      (findRow db.showtimes i).map ShowtimeRow.notified = some true →
      (findRow (processEntry now tn tid db mfs).1.showtimes i).map
        ShowtimeRow.notified = some true := by
  intro mfs
  induction mfs with
  | nil => intro db i h; exact h
  | cons mf rest ih =>
      intro db i h
      cases herr : (processMovieShowtimes now tn tid db mf).err with
      | some e =>
          simp only [processEntry, herr]
          exact notified_stays_processMovieShowtimes now tn tid db mf i h
      | none =>
          simp only [processEntry, herr]
          exact ih _ i (notified_stays_processMovieShowtimes now tn tid db mf i h)

theorem keyPresent_mono_processEntry (now tn : String) (tid : Nat)
    (c : ShowtimeCandidate) :
    ∀ (mfs : List MovieFetch) (db : DbState), keyPresent c db.showtimes →
      keyPresent c (processEntry now tn tid db mfs).1.showtimes := by
  intro mfs
  induction mfs with
  | nil => intro db h; exact h
  | cons mf rest ih =>
      intro db h
      cases herr : (processMovieShowtimes now tn tid db mf).err with
      | some e =>
          simp only [processEntry, herr]
          exact keyPresent_mono_processMovieShowtimes now tn tid db mf c h
      | none =>
          simp only [processEntry, herr]
          exact ih _ (keyPresent_mono_processMovieShowtimes now tn tid db mf c h)

theorem movieIdOf_mono_processEntry (now tn : String) (tid : Nat)
    (s : String) (i : Nat) :
    ∀ (mfs : List MovieFetch) (db : DbState), movieIdOf db s = some i →
      movieIdOf (processEntry now tn tid db mfs).1 s = some i := by
  intro mfs
  induction mfs with
  | nil => intro db h; exact h
  | cons mf rest ih =>
      intro db h
      cases herr : (processMovieShowtimes now tn tid db mf).err with
      | some e =>
          simp only [processEntry, herr]
          exact movieIdOf_mono_processMovieShowtimes now tn tid db mf s i h
      | none =>
          simp only [processEntry, herr]
          exact ih _ (movieIdOf_mono_processMovieShowtimes now tn tid db mf s i h)

theorem marked_notified_processEntry (now tn : String) (tid : Nat) :
    ∀ (mfs : List MovieFetch) (db : DbState), idsBelowNext db.showtimes →
      ∀ id, RunEvent.marked id ∈ (processEntry now tn tid db mfs).2.2.1 →
        (findRow (processEntry now tn tid db mfs).1.showtimes id).map
          ShowtimeRow.notified = some true := by
  intro mfs
  induction mfs with
  | nil => intro db hwf id hmem; cases hmem
  | cons mf rest ih =>
      intro db hwf id hmem
      cases herr : (processMovieShowtimes now tn tid db mf).err with
      | some e =>
          simp only [processEntry, herr] at hmem ⊢
          exact marked_notified_processMovieShowtimes now tn tid db mf hwf id hmem
      | none =>
          simp only [processEntry, herr] at hmem ⊢
          rcases List.mem_append.mp hmem with hleft | hright
          · exact notified_stays_processEntry now tn tid rest _ id
              (marked_notified_processMovieShowtimes now tn tid db mf hwf id hleft)
          · exact ih _ (idsBelowNext_processMovieShowtimes now tn tid db mf hwf)
              id hright

theorem processEntry_post (now tn : String) (tid : Nat) :
    ∀ (mfs : List MovieFetch) (db : DbState),
      (∀ mf ∈ mfs, ∃ l, mf.fetch = FetchOutcome.ok l ∧
        ∀ s ∈ l, s.auditorium.isSome = true) →
      ∀ mf ∈ mfs, ∃ l i, mf.fetch = FetchOutcome.ok l ∧
        movieIdOf (processEntry now tn tid db mfs).1 mf.slug = some i ∧
        ∀ s ∈ l, isFutureAt now s = true →
          keyPresent (toCandidate i tid s)
            (processEntry now tn tid db mfs).1.showtimes := by
  intro mfs
  induction mfs with
  | nil => intro db hok mf hmf; cases hmf
  | cons mf0 rest ih =>
      intro db hok mf hmf
      obtain ⟨l0, hl0, hall0⟩ := hok mf0 (by simp)
      have herr : (processMovieShowtimes now tn tid db mf0).err = none := by
        rw [processMovieShowtimes_ok now tn tid db mf0 l0 hl0]
      simp only [processEntry, herr]
      rcases List.mem_cons.mp hmf with rfl | hrest
      · obtain ⟨i, hmid, hpres⟩ :=
          processMovieShowtimes_post now tn tid db mf l0 hl0 hall0
        refine ⟨l0, i, hl0, ?_, ?_⟩
        · exact movieIdOf_mono_processEntry now tn tid mf.slug i rest _ hmid
        · intro s hs hfut
          exact keyPresent_mono_processEntry now tn tid _ rest _ (hpres s hs hfut)
      · exact ih _ (fun x hx => hok x (by simp [hx])) mf hrest

theorem silent_processEntry (now2 tn : String) (tid : Nat) :
    ∀ (mfs : List MovieFetch) (db : DbState),
      (∀ mf ∈ mfs, ∃ l i, mf.fetch = FetchOutcome.ok l ∧
        movieIdOf db mf.slug = some i ∧
        ∀ s ∈ l, isFutureAt now2 s = true →
          keyPresent (toCandidate i tid s) db.showtimes) →
      (processEntry now2 tn tid db mfs).2.1 = [] := by
  intro mfs
  induction mfs with
  | nil => intro db hp; rfl
  | cons mf0 rest ih =>
      intro db hp
      obtain ⟨l0, i0, hl0, hmid0, hpres0⟩ := hp mf0 (by simp)
      have herr : (processMovieShowtimes now2 tn tid db mf0).err = none := by
        rw [processMovieShowtimes_ok now2 tn tid db mf0 l0 hl0]
      have hmsgs0 : (processMovieShowtimes now2 tn tid db mf0).msgs = [] :=
        silent_processMovieShowtimes now2 tn tid db mf0 l0 i0 hl0 hmid0 hpres0
      simp only [processEntry, herr]
      rw [hmsgs0, List.nil_append]
      apply ih
      intro mf hmf
      obtain ⟨l, i, hl, hmid, hpres⟩ := hp mf (by simp [hmf])
      refine ⟨l, i, hl, ?_, ?_⟩
      · exact movieIdOf_mono_processMovieShowtimes now2 tn tid db mf0 mf.slug i hmid
      · intro s hs hfut
        exact keyPresent_mono_processMovieShowtimes now2 tn tid db mf0 _
          (hpres s hs hfut)

/-! checkForNewShowtimes-level lemmas -/

theorem idsBelowNext_check (now tn : String) (tid : Nat) :
    ∀ (entries : List (List MovieFetch)) (db : DbState),
      idsBelowNext db.showtimes →
      idsBelowNext (checkForNewShowtimes now tn tid db entries).db.showtimes := by
  intro entries
  induction entries with
  | nil => intro db h; exact h
  | cons entry rest ih =>
      intro db h
      simp only [checkForNewShowtimes]
      exact ih _ (idsBelowNext_processEntry now tn tid entry db h)

theorem notified_stays_check (now tn : String) (tid : Nat) :
    ∀ (entries : List (List MovieFetch)) (db : DbState) (i : Nat),
      (findRow db.showtimes i).map ShowtimeRow.notified = some true →
      (findRow (checkForNewShowtimes now tn tid db entries).db.showtimes i).map
        ShowtimeRow.notified = some true := by
  intro entries
  induction entries with
  | nil => intro db i h; exact h
  | cons entry rest ih =>
      intro db i h
      simp only [checkForNewShowtimes]
      exact ih _ i (notified_stays_processEntry now tn tid entry db i h)

theorem keyPresent_mono_check (now tn : String) (tid : Nat)
    (c : ShowtimeCandidate) :
    ∀ (entries : List (List MovieFetch)) (db : DbState),
      keyPresent c db.showtimes →
      keyPresent c (checkForNewShowtimes now tn tid db entries).db.showtimes := by
  intro entries
  induction entries with
  | nil => intro db h; exact h
  | cons entry rest ih =>
      intro db h
      simp only [checkForNewShowtimes]
      exact ih _ (keyPresent_mono_processEntry now tn tid c entry db h)

theorem movieIdOf_mono_check (now tn : String) (tid : Nat) (s : String) (i : Nat) :
    ∀ (entries : List (List MovieFetch)) (db : DbState),
      movieIdOf db s = some i →
      movieIdOf (checkForNewShowtimes now tn tid db entries).db s = some i := by
  intro entries
  induction entries with
  | nil => intro db h; exact h
  | cons entry rest ih =>
      intro db h
      simp only [checkForNewShowtimes]
      exact ih _ (movieIdOf_mono_processEntry now tn tid s i entry db h)

theorem marked_notified_check (now tn : String) (tid : Nat) :
    ∀ (entries : List (List MovieFetch)) (db : DbState),
      idsBelowNext db.showtimes →
      ∀ id, RunEvent.marked id ∈ (checkForNewShowtimes now tn tid db entries).events →
        (findRow (checkForNewShowtimes now tn tid db entries).db.showtimes id).map
          ShowtimeRow.notified = some true := by
  intro entries
  induction entries with
  | nil => intro db hwf id hmem; cases hmem
  | cons entry rest ih =>
      intro db hwf id hmem
      simp only [checkForNewShowtimes] at hmem ⊢
      rcases List.mem_append.mp hmem with hleft | hright
      · exact notified_stays_check now tn tid rest _ id
          (marked_notified_processEntry now tn tid entry db hwf id hleft)
      · exact ih _ (idsBelowNext_processEntry now tn tid entry db hwf) id hright

theorem check_post (now tn : String) (tid : Nat) :
    ∀ (entries : List (List MovieFetch)) (db : DbState),
      (∀ mfs ∈ entries, ∀ mf ∈ mfs, ∃ l, mf.fetch = FetchOutcome.ok l ∧
        ∀ s ∈ l, s.auditorium.isSome = true) →
      ∀ mfs ∈ entries, ∀ mf ∈ mfs, ∃ l i, mf.fetch = FetchOutcome.ok l ∧
        movieIdOf (checkForNewShowtimes now tn tid db entries).db mf.slug = some i ∧
        ∀ s ∈ l, isFutureAt now s = true →
          keyPresent (toCandidate i tid s)
            (checkForNewShowtimes now tn tid db entries).db.showtimes := by
  intro entries
  induction entries with
  | nil => intro db hok mfs hmfs; cases hmfs
  | cons entry rest ih =>
      intro db hok mfs hmfs mf hmf
      simp only [checkForNewShowtimes]
      rcases List.mem_cons.mp hmfs with rfl | hrest
      · obtain ⟨l, i, hl, hmid, hpres⟩ :=
          processEntry_post now tn tid mfs db (hok mfs (by simp)) mf hmf
        refine ⟨l, i, hl, ?_, ?_⟩
        · exact movieIdOf_mono_check now tn tid mf.slug i rest _ hmid
        · intro s hs hfut
          exact keyPresent_mono_check now tn tid _ rest _ (hpres s hs hfut)
      · exact ih _ (fun x hx => hok x (by simp [hx])) mfs hrest mf hmf

theorem silent_check (now2 tn : String) (tid : Nat) :
    ∀ (entries : List (List MovieFetch)) (db : DbState),
      (∀ mfs ∈ entries, ∀ mf ∈ mfs, ∃ l i, mf.fetch = FetchOutcome.ok l ∧
        movieIdOf db mf.slug = some i ∧
        ∀ s ∈ l, isFutureAt now2 s = true →
          keyPresent (toCandidate i tid s) db.showtimes) →
      (checkForNewShowtimes now2 tn tid db entries).msgs = [] := by
  intro entries
  induction entries with
  | nil => intro db hp; rfl
  | cons entry rest ih =>
      intro db hp
      simp only [checkForNewShowtimes]
      rw [silent_processEntry now2 tn tid entry db (hp entry (by simp)),
        List.nil_append]
      apply ih
      intro mfs hmfs mf hmf
      obtain ⟨l, i, hl, hmid, hpres⟩ := hp mfs (by simp [hmfs]) mf hmf
      refine ⟨l, i, hl, ?_, ?_⟩
      · exact movieIdOf_mono_processEntry now2 tn tid mf.slug i entry db hmid
      · intro s hs hfut
        exact keyPresent_mono_processEntry now2 tn tid _ entry db (hpres s hs hfut)

/-! § C10: a failed batch send skips the remaining titles for good -/

theorem sendGroupLoop_fail (sendOk : String → Bool) :
    ∀ (pre : List (String × List TelegramMessage)) (k : String)
      (g : List TelegramMessage) (post : List (String × List TelegramMessage)),
      (∀ p ∈ pre, sendOk p.1 = true) → sendOk k = false →
      sendGroupLoop sendOk (pre ++ (k, g) :: post) = (pre.map Prod.fst, some k) := by
  intro pre
  induction pre with
  | nil =>
      intro k g post hpre hk
      simp [sendGroupLoop, hk]
  | cons p pre2 ih =>
      intro k g post hpre hk
      obtain ⟨p1, p2⟩ := p
      have hp : sendOk p1 = true := hpre (p1, p2) (by simp)
      simp only [List.cons_append, sendGroupLoop]
      rw [if_pos hp]
      simp only [List.append_eq]
      rw [ih k g post (fun q hq => hpre q (by simp [hq])) hk]
      rfl

/-- C10: if the batch send fails at one title's group, the loop throws: the
groups before it were posted, none of the later titles' groups is ever
attempted — while every showtime marked during the run already has
notified = true in the final store, and a later identical run (at any later
clock) yields no notifications at all, so the unsent showings are silently
lost. -/
theorem send_failure_skips_rest_and_showings_lost
    (now now2 tn : String) (tid : Nat) (db : DbState)
    (entries : List (List MovieFetch)) (sendOk : String → Bool)
    (pre post : List (String × List TelegramMessage)) (k : String)
    (g : List TelegramMessage)
    (hwf : idsBelowNext db.showtimes)
    (hok : ∀ mfs ∈ entries, ∀ mf ∈ mfs, ∃ l, mf.fetch = FetchOutcome.ok l ∧
      ∀ s ∈ l, s.auditorium.isSome = true)
    (hfut : ∀ s : AMCShowtime, isFutureAt now2 s = true → isFutureAt now s = true)
    (hsplit : groupByMovie (checkForNewShowtimes now tn tid db entries).msgs =
      pre ++ (k, g) :: post)
    (hpre : ∀ p ∈ pre, sendOk p.1 = true) (hk : sendOk k = false) :
    sendBatchNotification sendOk
      (checkForNewShowtimes now tn tid db entries).msgs =
      (pre.map Prod.fst, some k) ∧
    (∀ p ∈ post, p.1 ∉ (sendBatchNotification sendOk
      (checkForNewShowtimes now tn tid db entries).msgs).1) ∧
    (∀ id, RunEvent.marked id ∈
        (checkForNewShowtimes now tn tid db entries).events →
      (findRow (checkForNewShowtimes now tn tid db entries).db.showtimes id).map
        ShowtimeRow.notified = some true) ∧
    (checkForNewShowtimes now2 tn tid
      (checkForNewShowtimes now tn tid db entries).db entries).msgs = [] := by
  have hsend : sendBatchNotification sendOk
      (checkForNewShowtimes now tn tid db entries).msgs =
      (pre.map Prod.fst, some k) := by
    unfold sendBatchNotification
    rw [hsplit]
    exact sendGroupLoop_fail sendOk pre k g post hpre hk
  refine ⟨hsend, ?_, ?_, ?_⟩
  · intro p hp hmem
    rw [hsend] at hmem
    have hnd := (groupByMovie_inv (checkForNewShowtimes now tn tid db entries).msgs).1
    rw [hsplit] at hnd
    rw [List.map_append, List.map_cons] at hnd
    rw [List.nodup_append] at hnd
    exact hnd.2.2 hmem (by
      simp only [List.mem_cons]
      exact Or.inr (List.mem_map.mpr ⟨p, hp, rfl⟩))
  · exact marked_notified_check now tn tid entries db hwf
  · apply silent_check
    intro mfs hmfs mf hmf
    obtain ⟨l, i, hl, hmid, hpres⟩ :=
      check_post now tn tid entries db hok mfs hmfs mf hmf
    exact ⟨l, i, hl, hmid, fun s hs hf2 => hpres s hs (hfut s hf2)⟩

/-- Two titles, one future showtime each, fetched successfully. -/
def showAvatar : AMCShowtime :=
  { id := 90010, showDateTimeUtc := "2026-02-01T03:00:00Z"
    showDateTimeLocal := "2026-01-31T19:00:00", auditorium := some 5
    isSoldOut := false, isAlmostSoldOut := false, attributes := [] }

def showMinions : AMCShowtime :=
  { id := 90020, showDateTimeUtc := "2026-02-02T03:00:00Z"
    showDateTimeLocal := "2026-02-01T19:00:00", auditorium := some 3
    isSoldOut := false, isAlmostSoldOut := false, attributes := [] }

def mfAvatar : MovieFetch := ⟨"avatar-3", "Avatar", .ok [showAvatar]⟩

def mfMinions : MovieFetch := ⟨"minions-3", "Minions", .ok [showMinions]⟩

/-- A messaging channel that rejects the Avatar batch. -/
def sendOkNoAvatar (nm : String) : Bool := !(nm == "Avatar")

/-- C10 (witness): the theorem at two entries whose first group fails to
send: nothing is posted, the send loop stops at Avatar, every marked row is
notified, and a second identical run yields no notifications. -/
theorem send_failure_skips_rest_and_showings_lost_witness :
    sendBatchNotification sendOkNoAvatar
      (checkForNewShowtimes "2025-10-11T00:00:00Z" "AMC Test 1" 609 dbEmpty
        [[mfAvatar], [mfMinions]]).msgs = (([] : List (String × List TelegramMessage)).map Prod.fst, some "Avatar") ∧
    (∀ p ∈ [("Minions", [toMessage "Minions" "AMC Test 1" showMinions])],
      p.1 ∉ (sendBatchNotification sendOkNoAvatar
        (checkForNewShowtimes "2025-10-11T00:00:00Z" "AMC Test 1" 609 dbEmpty
          [[mfAvatar], [mfMinions]]).msgs).1) ∧
    (∀ id, RunEvent.marked id ∈
        (checkForNewShowtimes "2025-10-11T00:00:00Z" "AMC Test 1" 609 dbEmpty
          [[mfAvatar], [mfMinions]]).events →
      (findRow (checkForNewShowtimes "2025-10-11T00:00:00Z" "AMC Test 1" 609
        dbEmpty [[mfAvatar], [mfMinions]]).db.showtimes id).map
        ShowtimeRow.notified = some true) ∧
    (checkForNewShowtimes "2025-10-11T00:00:00Z" "AMC Test 1" 609
      (checkForNewShowtimes "2025-10-11T00:00:00Z" "AMC Test 1" 609 dbEmpty
        [[mfAvatar], [mfMinions]]).db [[mfAvatar], [mfMinions]]).msgs = [] :=
  send_failure_skips_rest_and_showings_lost "2025-10-11T00:00:00Z"
    "2025-10-11T00:00:00Z" "AMC Test 1" 609 dbEmpty [[mfAvatar], [mfMinions]]
    sendOkNoAvatar []
    [("Minions", [toMessage "Minions" "AMC Test 1" showMinions])] "Avatar"
    [toMessage "Avatar" "AMC Test 1" showAvatar]
    (fun r hr => absurd hr (List.not_mem_nil r))
    (by
      intro mfs hmfs mf hmf
      rcases List.mem_cons.mp hmfs with rfl | h2
      · rcases List.mem_cons.mp hmf with rfl | h3
        · exact ⟨[showAvatar], rfl, by decide⟩
        · cases h3
      · rcases List.mem_cons.mp h2 with rfl | h3
        · rcases List.mem_cons.mp hmf with rfl | h4
          · exact ⟨[showMinions], rfl, by decide⟩
          · cases h4
        · cases h3)
    (fun _ h => h)
    (by decide)
    (fun p hp => absurd hp (List.not_mem_nil p))
    (by decide)

end AMCMonitor
